import Mathlib

/-!
Pose update and face normals of the spaceship demo.

A shallow embedding of two functions of `src/main.cpp`:

* `update` (lines 601-675): the per-frame update of the player record from
  the four input flags;
* `findNormals` (lines 750-765): the per-triangle normal computation over the
  flat vertex buffer `player.points`.

`update` is embedded twice.  In `update` the C++ `float` scalars are exact
rationals (no rounding); in `updateFloat` they are binary32 values and every
operation rounds as the C++ types prescribe.  Statements about `update` are
about the arithmetic of the program read exactly; statements about
`updateFloat` are about the values the program computes.  `findNormals` is
embedded over exact rationals.  The
`int` loop counter of `findNormals` is a natural number, which is exact for
buffers of fewer than `2^31` scalars.  The unchecked subscripts of
`std::vector` are checked in the model: a result `none` stands for an
out-of-range access.
-/

namespace Spaceship

/-! ## Globals -/

/-- The record `GLOBALS.INPUT`: four boolean flags written by `input()`. -/
structure Input where
  left : Bool := false
  right : Bool := false
  up : Bool := false
  down : Bool := false
  deriving DecidableEq, Repr

/-- The constant `GLOBALS.MATH.PI`, `float PI = 3.14159`. -/
def PI : ℚ := 3.14159

/-- The scalar fields of the global `player` record (the mesh tables are
modelled separately). -/
structure Player where
  x : ℚ := 0
  y : ℚ := 0
  tiltX : ℚ := 0
  tiltY : ℚ := 0
  health : Int := 100
  deriving DecidableEq, Repr

/-- The `player` record as the program initialises it. -/
def player : Player := {}

/-! ## `update` -/

/-- The function `update()` of `src/main.cpp`, restricted to the `player`
record.  The statements follow the source in order; each `let s := ...`
is one `if` statement of the source acting on the record.  The tail of the
source function (light position, shader uniforms, `printf`) does not touch
`player` and is not part of this state. -/
def update (inp : Input) (s : Player) : Player :=
  let s :=
    if inp.left || inp.right then
      let s :=
        if inp.left then
          let s := if s.x > -5 then { s with x := s.x - 0.1 } else s
          let s :=
            if s.tiltX < PI / 4 then
              if s.tiltX < 0 then { s with tiltX := s.tiltX + 0.05 }
              else { s with tiltX := s.tiltX + 0.01 }
            else s
          s
        else s
      let s :=
        if inp.right then
          let s := if s.x < 5 then { s with x := s.x + 0.1 } else s
          let s :=
            if s.tiltX > -PI / 4 then
              if s.tiltX > 0 then { s with tiltX := s.tiltX - 0.05 }
              else { s with tiltX := s.tiltX - 0.01 }
            else s
          s
        else s
      s
    else
      if s.tiltX > 0.1 then { s with tiltX := s.tiltX - 0.05 }
      else if s.tiltX < -0.1 then { s with tiltX := s.tiltX + 0.05 }
      else { s with tiltX := 0 }
  let s :=
    if inp.up || inp.down then
      let s :=
        if inp.up then
          if s.tiltY < PI / 4 then
            if s.tiltY < 0 then { s with tiltY := s.tiltY + 0.05 }
            else { s with tiltY := s.tiltY + 0.01 }
          else s
        else s
      let s :=
        if inp.down then
          if s.tiltY > -PI / 4 then
            if s.tiltY > 0 then { s with tiltY := s.tiltY - 0.05 }
            else { s with tiltY := s.tiltY - 0.01 }
          else s
        else s
      s
    else
      if s.tiltY > 0.1 then { s with tiltY := s.tiltY - 0.05 }
      else if s.tiltY < -0.1 then { s with tiltY := s.tiltY + 0.05 }
      else { s with tiltY := 0 }
  s

/-- The main loop calls `update` once per frame; `run inps s` is the record
after one call per element of `inps`, in order, starting from `s`. -/
def run (inps : List Input) (s : Player) : Player :=
  inps.foldl (fun s inp => update inp s) s

/-! ## `findNormals` -/

/-- The type `glm::vec3`, three scalars. -/
structure Vec3 where
  x : ℚ
  y : ℚ
  z : ℚ
  deriving DecidableEq, Repr

instance : Sub Vec3 := ⟨fun a b => ⟨a.x - b.x, a.y - b.y, a.z - b.z⟩⟩

/-- The operator `*` of `glm::vec3` is the component-wise product. -/
instance : Mul Vec3 := ⟨fun a b => ⟨a.x * b.x, a.y * b.y, a.z * b.z⟩⟩

/-- The assignment `points[i] = v` on a `std::vector<float>`.  The C++
subscript is unchecked; the model makes an out-of-range index observable as
`none`. -/
def store (points : Array ℚ) (i : Nat) (v : ℚ) : Option (Array ℚ) :=
  if h : i < points.size then some (points.set ⟨i, h⟩ v) else none

/-- The constructor call `glm::vec3 p(points[a], points[b], points[c])`:
three unchecked reads, `none` when one of them is out of range. -/
def readVec3 (points : Array ℚ) (a b c : Nat) : Option Vec3 := do
  let x ← points[a]?
  let y ← points[b]?
  let z ← points[c]?
  pure ⟨x, y, z⟩

/-- The chained assignment `points[a] = points[b] = points[c] = v`: it
stores `v` at `c`, then at `b`, then at `a`. -/
def storeChain (points : Array ℚ) (a b c : Nat) (v : ℚ) : Option (Array ℚ) := do
  let points ← store points c v
  let points ← store points b v
  let points ← store points a v
  pure points

/-- One iteration of the loop of `findNormals` at loop value `i`
(lines 754-763).  `N = U * V` is computed by the source and never used. -/
def findNormalsBody (i : Nat) (points : Array ℚ) : Option (Array ℚ) := do
  let p1 ← readVec3 points i (i + 1) (i + 2)
  let p2 ← readVec3 points (i + 9) (i + 10) (i + 11)
  let p3 ← readVec3 points (i + 18) (i + 19) (i + 20)
  let U := p2 - p1
  let V := p3 - p1
  let _N := U * V
  let points ← storeChain points (i + 24) (i + 15) (i + 6) (U.y * V.z - U.z - V.y)
  let points ← storeChain points (i + 25) (i + 16) (i + 7) (U.z * V.x - U.x * V.z)
  let points ← storeChain points (i + 26) (i + 17) (i + 8) (U.x * V.y - U.y * V.x)
  pure points

/-- The loop `for (int i = 0; i < player.points.size(); i += 9 * 3)`, from
loop value `i`.  The first argument bounds the number of iterations left;
`findNormals` passes a bound the loop never reaches.  The counter is a C++
`int`, modelled as a natural number. -/
def findNormalsLoop : Nat → Nat → Array ℚ → Option (Array ℚ)
  | 0, i, points => if i < points.size then none else some points
  | fuel + 1, i, points =>
    if i < points.size then
      (findNormalsBody i points).bind (findNormalsLoop fuel (i + 9 * 3))
    else some points

/-- The function `findNormals(std::vector<float>& data)`.  The source never
reads its parameter: it works on the global `player.points`, passed here as
`points`; the result is the new `player.points`, or `none` when a subscript
was out of range. -/
def findNormals (_data : Array ℚ) (points : Array ℚ) : Option (Array ℚ) :=
  findNormalsLoop points.size 0 points

/-! ### Reading a vertex buffer -/

/-- The three scalars at offsets `j`, `j + 1`, `j + 2` of a buffer, as a vector (zero where the buffer is too short). -/
def vec3At (points : Array ℚ) (j : Nat) : Vec3 :=
  ⟨points.getD j 0, points.getD (j + 1) 0, points.getD (j + 2) 0⟩

/-- Position of vertex `v` (`v = 0, 1, 2`) of triangle `k`: slots 0-2 of the
vertex's 9 scalars. -/
def position (points : Array ℚ) (k v : Nat) : Vec3 := vec3At points (27 * k + 9 * v)

/-- Colour of vertex `v` of triangle `k`: slots 3-5. -/
def colour (points : Array ℚ) (k v : Nat) : Vec3 := vec3At points (27 * k + 9 * v + 3)

/-- Normal slot of vertex `v` of triangle `k`: slots 6-8. -/
def normal (points : Array ℚ) (k v : Nat) : Vec3 := vec3At points (27 * k + 9 * v + 6)

/-- Component `c` of a vector: `0` is `x`, `1` is `y`, anything else `z`. -/
def Vec3.comp (v : Vec3) (c : Nat) : ℚ :=
  if c = 0 then v.x else if c = 1 then v.y else v.z

/-- The three expressions that lines 761-763 store, as a vector, in terms
of the three positions read at lines 754-756. -/
def storedNormal (p1 p2 p3 : Vec3) : Vec3 :=
  let U := p2 - p1
  let V := p3 - p1
  ⟨U.y * V.z - U.z - V.y, U.z * V.x - U.x * V.z, U.x * V.y - U.y * V.x⟩

/-- The standard cross product, as the specification writes it:
`N.x = U.y·V.z − U.z·V.y, N.y = U.z·V.x − U.x·V.z, N.z = U.x·V.y − U.y·V.x`. -/
def cross (U V : Vec3) : Vec3 :=
  ⟨U.y * V.z - U.z * V.y, U.z * V.x - U.x * V.z, U.x * V.y - U.y * V.x⟩

/-- The table `player.points` as the source initialises it (lines 232-336):
78 vertices of 9 scalars (position, colour, normal slot), 26 triangles. -/
def player.points : Array ℚ := #[
  -1.000,  0.000,  0.000,   1.00,   1.00,   1.00,      0,      0,      0,
   1.000,  0.000,  0.000,   1.00,   1.00,   1.00,      0,      0,      0,
   0.000, -0.500, -0.250,   1.00,   1.00,   1.00,      0,      0,      0,

  -1.000,  0.000,  0.000,   1.00,   1.00,   1.00,      0,      0,      0,
  -0.750,  1.000,  0.000,   1.00,   1.00,   1.00,      0,      0,      0,
   0.000,  0.600,  2.000,   1.00,   1.00,   1.00,      0,      0,      0,

  -0.750,  1.000,  0.000,   1.00,   1.00,   1.00,      0,      0,      0,
   0.000,  1.000,  0.000,   1.00,   1.00,   1.00,      0,      0,      0,
   0.000,  0.600,  2.000,   1.00,   1.00,   1.00,      0,      0,      0,

   0.000,  1.000,  0.000,   1.00,   1.00,   1.00,      0,      0,      0,
   0.750,  1.000,  0.000,   1.00,   1.00,   1.00,      0,      0,      0,
   0.000,  0.600,  2.000,   1.00,   1.00,   1.00,      0,      0,      0,

   0.750,  1.000,  0.000,   1.00,   1.00,   1.00,      0,      0,      0,
   1.000,  0.000,  0.000,   1.00,   1.00,   1.00,      0,      0,      0,
   0.000,  0.600,  2.000,   1.00,   1.00,   1.00,      0,      0,      0,

  -1.000,  0.000,  0.000,   1.00,   1.00,   1.00,      0,      0,      0,
  -0.750,  1.000,  0.000,   1.00,   1.00,   1.00,      0,      0,      0,
   0.000,  0.250, -6.000,   1.00,   1.00,   1.00,      0,      0,      0,

  -0.750,  1.000,  0.000,   1.00,   1.00,   1.00,      0,      0,      0,
   0.750,  1.000,  0.000,   1.00,   1.00,   1.00,      0,      0,      0,
   0.000,  0.250, -6.000,   1.00,   1.00,   1.00,      0,      0,      0,

   0.750,  1.000,  0.000,   1.00,   1.00,   1.00,      0,      0,      0,
   1.000,  0.000,  0.000,   1.00,   1.00,   1.00,      0,      0,      0,
   0.000,  0.250, -6.000,   1.00,   1.00,   1.00,      0,      0,      0,

  -1.000,  0.000,  0.000,   1.00,   1.00,   1.00,      0,      0,      0,
   0.000, -0.500, -0.250,   1.00,   1.00,   1.00,      0,      0,      0,
   0.000,  0.250, -6.000,   1.00,   1.00,   1.00,      0,      0,      0,

   1.000,  0.000,  0.000,   1.00,   1.00,   1.00,      0,      0,      0,
   0.000, -0.500, -0.250,   1.00,   1.00,   1.00,      0,      0,      0,
   0.000,  0.250, -6.000,   1.00,   1.00,   1.00,      0,      0,      0,

  -1.000,  0.000,  0.000,   0.00,   0.55,   0.96,      0,      0,      0,
  -2.000,  0.000,  0.000,   0.00,   0.55,   0.96,      0,      0,      0,
  -1.500,  4.000,  2.000,   0.00,   0.55,   0.96,      0,      0,      0,

  -2.000,  0.000,  0.000,   0.00,   0.55,   0.96,      0,      0,      0,
  -1.750,  0.750, -1.000,   0.00,   0.55,   0.96,      0,      0,      0,
  -1.500,  4.000,  2.000,   0.00,   0.55,   0.96,      0,      0,      0,

  -1.750,  0.750, -1.000,   0.00,   0.55,   0.96,      0,      0,      0,
  -1.000,  0.000,  0.000,   0.00,   0.55,   0.96,      0,      0,      0,
  -1.500,  4.000,  2.000,   0.00,   0.55,   0.96,      0,      0,      0,

  -1.000,  0.000,  0.000,   0.00,   0.55,   0.96,      0,      0,      0,
  -2.000,  0.000,  0.000,   0.00,   0.55,   0.96,      0,      0,      0,
  -1.750,  0.750, -1.000,   0.00,   0.55,   0.96,      0,      0,      0,

  -1.000,  0.000,  0.000,   0.00,   0.55,   0.96,      0,      0,      0,
  -1.500, -1.000,  0.000,   0.00,   0.55,   0.96,      0,      0,      0,
  -4.000, -1.250,  5.000,   0.00,   0.55,   0.96,      0,      0,      0,

  -1.000,  0.000,  0.000,   0.00,   0.55,   0.96,      0,      0,      0,
  -2.000,  0.000,  0.000,   0.00,   0.55,   0.96,      0,      0,      0,
  -4.000, -1.250,  5.000,   0.00,   0.55,   0.96,      0,      0,      0,

  -2.000,  0.000,  0.000,   0.00,   0.55,   0.96,      0,      0,      0,
  -1.500, -1.000,  0.000,   0.00,   0.55,   0.96,      0,      0,      0,
  -4.000, -1.250,  5.000,   0.00,   0.55,   0.96,      0,      0,      0,

  -1.000,  0.000,  0.000,   0.00,   0.55,   0.96,      0,      0,      0,
  -2.000,  0.000,  0.000,   0.00,   0.55,   0.96,      0,      0,      0,
  -1.500, -1.000,  0.000,   0.00,   0.55,   0.96,      0,      0,      0,

   1.000,  0.000,  0.000,   0.00,   0.55,   0.96,      0,      0,      0,
   2.000,  0.000,  0.000,   0.00,   0.55,   0.96,      0,      0,      0,
   1.500,  4.000,  2.000,   0.00,   0.55,   0.96,      0,      0,      0,

   2.000,  0.000,  0.000,   0.00,   0.55,   0.96,      0,      0,      0,
   1.750,  0.750, -1.000,   0.00,   0.55,   0.96,      0,      0,      0,
   1.500,  4.000,  2.000,   0.00,   0.55,   0.96,      0,      0,      0,

   1.750,  0.750, -1.000,   0.00,   0.55,   0.96,      0,      0,      0,
   1.000,  0.000,  0.000,   0.00,   0.55,   0.96,      0,      0,      0,
   1.500,  4.000,  2.000,   0.00,   0.55,   0.96,      0,      0,      0,

   1.000,  0.000,  0.000,   0.00,   0.55,   0.96,      0,      0,      0,
   2.000,  0.000,  0.000,   0.00,   0.55,   0.96,      0,      0,      0,
   1.750,  0.750, -1.000,   0.00,   0.55,   0.96,      0,      0,      0,

   1.000,  0.000,  0.000,   0.00,   0.55,   0.96,      0,      0,      0,
   1.500, -1.000,  0.000,   0.00,   0.55,   0.96,      0,      0,      0,
   4.000, -1.250,  5.000,   0.00,   0.55,   0.96,      0,      0,      0,

   1.000,  0.000,  0.000,   0.00,   0.55,   0.96,      0,      0,      0,
   2.000,  0.000,  0.000,   0.00,   0.55,   0.96,      0,      0,      0,
   4.000, -1.250,  5.000,   0.00,   0.55,   0.96,      0,      0,      0,

   2.000,  0.000,  0.000,   0.00,   0.55,   0.96,      0,      0,      0,
   1.500, -1.000,  0.000,   0.00,   0.55,   0.96,      0,      0,      0,
   4.000, -1.250,  5.000,   0.00,   0.55,   0.96,      0,      0,      0,

   1.000,  0.000,  0.000,   0.00,   0.55,   0.96,      0,      0,      0,
   2.000,  0.000,  0.000,   0.00,   0.55,   0.96,      0,      0,      0,
   1.500, -1.000,  0.000,   0.00,   0.55,   0.96,      0,      0,      0
]

/-! ## Decomposition of `update` used by the proofs -/

/-- The body of `if (GLOBALS.INPUT.left)` (lines 607-618). -/
def leftBlock (s : Player) : Player :=
  let s := if s.x > -5 then { s with x := s.x - 0.1 } else s
  let s :=
    if s.tiltX < PI / 4 then
      if s.tiltX < 0 then { s with tiltX := s.tiltX + 0.05 }
      else { s with tiltX := s.tiltX + 0.01 }
    else s
  s

/-- The body of `if (GLOBALS.INPUT.right)` (lines 621-632). -/
def rightBlock (s : Player) : Player :=
  let s := if s.x < 5 then { s with x := s.x + 0.1 } else s
  let s :=
    if s.tiltX > -PI / 4 then
      if s.tiltX > 0 then { s with tiltX := s.tiltX - 0.05 }
      else { s with tiltX := s.tiltX - 0.01 }
    else s
  s

/-- The `else` branch of the horizontal test (lines 636-641). -/
def relaxXBlock (s : Player) : Player :=
  if s.tiltX > 0.1 then { s with tiltX := s.tiltX - 0.05 }
  else if s.tiltX < -0.1 then { s with tiltX := s.tiltX + 0.05 }
  else { s with tiltX := 0 }

/-- The body of `if (GLOBALS.INPUT.up)` (lines 648-654). -/
def upBlock (s : Player) : Player :=
  if s.tiltY < PI / 4 then
    if s.tiltY < 0 then { s with tiltY := s.tiltY + 0.05 }
    else { s with tiltY := s.tiltY + 0.01 }
  else s

/-- The body of `if (GLOBALS.INPUT.down)` (lines 657-664). -/
def downBlock (s : Player) : Player :=
  if s.tiltY > -PI / 4 then
    if s.tiltY > 0 then { s with tiltY := s.tiltY - 0.05 }
    else { s with tiltY := s.tiltY - 0.01 }
  else s

/-- The `else` branch of the vertical test (lines 669-674). -/
def relaxYBlock (s : Player) : Player :=
  if s.tiltY > 0.1 then { s with tiltY := s.tiltY - 0.05 }
  else if s.tiltY < -0.1 then { s with tiltY := s.tiltY + 0.05 }
  else { s with tiltY := 0 }

/-- The first top-level statement of `update` (lines 603-642). -/
def horizBlock (inp : Input) (s : Player) : Player :=
  if inp.left || inp.right then
    let s := if inp.left then leftBlock s else s
    let s := if inp.right then rightBlock s else s
    s
  else relaxXBlock s

/-- The second top-level statement of `update` (lines 644-675). -/
def vertBlock (inp : Input) (s : Player) : Player :=
  if inp.up || inp.down then
    let s := if inp.up then upBlock s else s
    let s := if inp.down then downBlock s else s
    s
  else relaxYBlock s

/-- Effect of the guarded `+=` on a tilt: `if (t < PI / 4) { if (t < 0) t += 0.05; else t += 0.01; }`. -/
def tiltInc (t : ℚ) : ℚ :=
  if t < PI / 4 then (if t < 0 then t + 0.05 else t + 0.01) else t

/-- Effect of the guarded `-=` on a tilt: `if (t > -PI / 4) { if (t > 0) t -= 0.05; else t -= 0.01; }`. -/
def tiltDec (t : ℚ) : ℚ :=
  if t > -PI / 4 then (if t > 0 then t - 0.05 else t - 0.01) else t

/-- Effect of the relaxation branch on a tilt. -/
def tiltRelax (t : ℚ) : ℚ :=
  if t > 0.1 then t - 0.05 else if t < -0.1 then t + 0.05 else 0

/-- Effect of `if (player.x > -5) player.x -= 0.1` on the offset. -/
def xDec (x : ℚ) : ℚ := if x > -5 then x - 0.1 else x

/-- Effect of `if (player.x < 5) player.x += 0.1` on the offset. -/
def xInc (x : ℚ) : ℚ := if x < 5 then x + 0.1 else x

/-- The offset after one `update`, as a function of the flags and the offset before. -/
def horizX (inp : Input) (x : ℚ) : ℚ :=
  let x := if inp.left then xDec x else x
  if inp.right then xInc x else x

/-- A tilt after one `update`, as a function of the two flags of its axis
(`pos` is left or up, `neg` is right or down) and the tilt before. -/
def axisTilt (pos neg : Bool) (t : ℚ) : ℚ :=
  if pos || neg then
    let t := if pos then tiltInc t else t
    if neg then tiltDec t else t
  else tiltRelax t

/-- The bound that the tilts keep: `PI / 4` plus one small increment. -/
def tiltBound : ℚ := PI / 4 + 0.01

/-- A buffer holding one triangle whose three positions lie on one line:
`(0,0,0)`, `(0,1,0)`, `(0,2,0)`, colours `(1,1,1)`, normal slots `0`. -/
def collinearTriangle : Array ℚ := #[
  0, 0, 0, 1, 1, 1, 0, 0, 0,
  0, 1, 0, 1, 1, 1, 0, 0, 0,
  0, 2, 0, 1, 1, 1, 0, 0, 0]

/-- A buffer of two triangles: triangle `0` is `(0,0,0)`, `(1,0,0)`, `(0,1,0)`
in red, triangle `1` is `(0,0,1)`, `(2,0,1)`, `(0,3,1)` in green; normal slots `0`. -/
def twoTriangles : Array ℚ := #[
  0, 0, 0, 1, 0, 0, 0, 0, 0,
  1, 0, 0, 1, 0, 0, 0, 0, 0,
  0, 1, 0, 1, 0, 0, 0, 0, 0,
  0, 0, 1, 0, 1, 0, 0, 0, 0,
  2, 0, 1, 0, 1, 0, 0, 0, 0,
  0, 3, 1, 0, 1, 0, 0, 0, 0]

/-- A buffer of two triangles with the positions of triangle `1` of
`twoTriangles`, other colours, nonzero normal slots, and a triangle `0` whose
three positions are all `(1,2,3)`. -/
def twoTrianglesOther : Array ℚ := #[
  1, 2, 3, 0, 0, 1, 7, 7, 7,
  1, 2, 3, 0, 0, 1, 7, 7, 7,
  1, 2, 3, 0, 0, 1, 7, 7, 7,
  0, 0, 1, 1, 1, 1, 5, 6, 7,
  2, 0, 1, 1, 1, 1, 8, 9, 4,
  0, 3, 1, 1, 1, 1, 3, 2, 1]

/-! ## Binary floating point

The C++ scalars of `player` are `float` (binary32) and the literals `0.1`,
`0.05`, `0.01` are `double` (binary64).  A floating-point value is modelled as
the rational it denotes; an operation is the exact operation followed by
rounding to nearest, ties to even.  Infinities and NaN are not modelled: no
operation of `update` on finite values overflows. -/

/-- Nearest integer to a rational, a tie going to the even one. -/
def roundEven (q : ℚ) : ℤ :=
  if q - ⌊q⌋ < 1 / 2 then ⌊q⌋
  else if 1 / 2 < q - ⌊q⌋ then ⌊q⌋ + 1
  else if ⌊q⌋ % 2 = 0 then ⌊q⌋ else ⌊q⌋ + 1

/-- Rounding of a rational to the binary format with `prec` significand bits
and least normal exponent `emin`: the spacing of the format at `q` is
`2 ^ (e - (prec - 1))` with `e = max ⌊log₂ |q|⌋ emin` (subnormals included),
and `q` goes to the nearest multiple of it. -/
def roundBin (prec : ℕ) (emin : ℤ) (q : ℚ) : ℚ :=
  let e := max (Int.log 2 |q|) emin
  let u : ℚ := 2 ^ (e - (prec - 1))
  roundEven (q / u) * u

/-- A certificate for one rounding: `q` has binary exponent `e` (not below
`emin`) and `n` is the nearest integer to `q` in units of the spacing
`2 ^ (e - (prec - 1))`, even when `q` lies half way. -/
def RoundsTo (prec : ℕ) (emin : ℤ) (q : ℚ) (e n : ℤ) : Prop :=
  emin ≤ e ∧ (2 : ℚ) ^ e ≤ |q| ∧ |q| < (2 : ℚ) ^ (e + 1) ∧
    -(1 / 2) ≤ q / (2 : ℚ) ^ (e - (prec - 1)) - n ∧
    q / (2 : ℚ) ^ (e - (prec - 1)) - n ≤ 1 / 2 ∧
    ((q / (2 : ℚ) ^ (e - (prec - 1)) - n = 1 / 2 ∨
      q / (2 : ℚ) ^ (e - (prec - 1)) - n = -(1 / 2)) → n % 2 = 0)

/-- Conversion to `float` (binary32: 24 significand bits, least normal exponent -126). -/
def toFloat (q : ℚ) : ℚ := roundBin 24 (-126) q

/-- Conversion to `double` (binary64: 53 significand bits, least normal exponent -1022). -/
def toDouble (q : ℚ) : ℚ := roundBin 53 (-1022) q

/-- The constant `GLOBALS.MATH.PI` as the program holds it: the `double`
literal `3.14159` stored in a `float`. -/
def PIf : ℚ := toFloat (toDouble 3.14159)

/-- The function `update()` of `src/main.cpp` on the `player` record, with the
arithmetic of the C++ types.  A compound assignment `f -= 0.1` on a `float`
`f` computes `f - 0.1` in `double` and converts the result to `float`; a
comparison of a `float` with a `double` literal is made in `double`, with an
`int` or a `float` in `float`; `GLOBALS.MATH.PI / 4` is a `float` division.
The fields of the argument are meant to be binary32 values. -/
def updateFloat (inp : Input) (s : Player) : Player :=
  let s :=
    if inp.left || inp.right then
      let s :=
        if inp.left then
          let s :=
            if s.x > -5 then { s with x := toFloat (toDouble (s.x - toDouble 0.1)) } else s
          let s :=
            if s.tiltX < toFloat (PIf / 4) then
              if s.tiltX < 0 then
                { s with tiltX := toFloat (toDouble (s.tiltX + toDouble 0.05)) }
              else { s with tiltX := toFloat (toDouble (s.tiltX + toDouble 0.01)) }
            else s
          s
        else s
      let s :=
        if inp.right then
          let s :=
            if s.x < 5 then { s with x := toFloat (toDouble (s.x + toDouble 0.1)) } else s
          let s :=
            if s.tiltX > toFloat (-PIf / 4) then
              if s.tiltX > 0 then
                { s with tiltX := toFloat (toDouble (s.tiltX - toDouble 0.05)) }
              else { s with tiltX := toFloat (toDouble (s.tiltX - toDouble 0.01)) }
            else s
          s
        else s
      s
    else
      if s.tiltX > toDouble 0.1 then
        { s with tiltX := toFloat (toDouble (s.tiltX - toDouble 0.05)) }
      else if s.tiltX < -toDouble 0.1 then
        { s with tiltX := toFloat (toDouble (s.tiltX + toDouble 0.05)) }
      else { s with tiltX := 0 }
  let s :=
    if inp.up || inp.down then
      let s :=
        if inp.up then
          if s.tiltY < toFloat (PIf / 4) then
            if s.tiltY < 0 then
              { s with tiltY := toFloat (toDouble (s.tiltY + toDouble 0.05)) }
            else { s with tiltY := toFloat (toDouble (s.tiltY + toDouble 0.01)) }
          else s
        else s
      let s :=
        if inp.down then
          if s.tiltY > toFloat (-PIf / 4) then
            if s.tiltY > 0 then
              { s with tiltY := toFloat (toDouble (s.tiltY - toDouble 0.05)) }
            else { s with tiltY := toFloat (toDouble (s.tiltY - toDouble 0.01)) }
          else s
        else s
      s
    else
      if s.tiltY > toDouble 0.1 then
        { s with tiltY := toFloat (toDouble (s.tiltY - toDouble 0.05)) }
      else if s.tiltY < -toDouble 0.1 then
        { s with tiltY := toFloat (toDouble (s.tiltY + toDouble 0.05)) }
      else { s with tiltY := 0 }
  s

/-- One call of `updateFloat` per element of `inps`, in order, starting from `s`. -/
def runFloat (inps : List Input) (s : Player) : Player :=
  inps.foldl (fun s inp => updateFloat inp s) s

/-! ### Decomposition of `updateFloat` used by the proofs -/

/-- The body of `if (GLOBALS.INPUT.left)` (lines 607-618), binary32. -/
def leftBlockF (s : Player) : Player :=
  let s :=
    if s.x > -5 then { s with x := toFloat (toDouble (s.x - toDouble 0.1)) } else s
  let s :=
    if s.tiltX < toFloat (PIf / 4) then
      if s.tiltX < 0 then
        { s with tiltX := toFloat (toDouble (s.tiltX + toDouble 0.05)) }
      else { s with tiltX := toFloat (toDouble (s.tiltX + toDouble 0.01)) }
    else s
  s

/-- The body of `if (GLOBALS.INPUT.right)` (lines 621-632), binary32. -/
def rightBlockF (s : Player) : Player :=
  let s :=
    if s.x < 5 then { s with x := toFloat (toDouble (s.x + toDouble 0.1)) } else s
  let s :=
    if s.tiltX > toFloat (-PIf / 4) then
      if s.tiltX > 0 then
        { s with tiltX := toFloat (toDouble (s.tiltX - toDouble 0.05)) }
      else { s with tiltX := toFloat (toDouble (s.tiltX - toDouble 0.01)) }
    else s
  s

/-- The `else` branch of the horizontal test (lines 636-641), binary32. -/
def relaxXBlockF (s : Player) : Player :=
  if s.tiltX > toDouble 0.1 then
    { s with tiltX := toFloat (toDouble (s.tiltX - toDouble 0.05)) }
  else if s.tiltX < -toDouble 0.1 then
    { s with tiltX := toFloat (toDouble (s.tiltX + toDouble 0.05)) }
  else { s with tiltX := 0 }

/-- The body of `if (GLOBALS.INPUT.up)` (lines 648-654), binary32. -/
def upBlockF (s : Player) : Player :=
  if s.tiltY < toFloat (PIf / 4) then
    if s.tiltY < 0 then
      { s with tiltY := toFloat (toDouble (s.tiltY + toDouble 0.05)) }
    else { s with tiltY := toFloat (toDouble (s.tiltY + toDouble 0.01)) }
  else s

/-- The body of `if (GLOBALS.INPUT.down)` (lines 657-664), binary32. -/
def downBlockF (s : Player) : Player :=
  if s.tiltY > toFloat (-PIf / 4) then
    if s.tiltY > 0 then
      { s with tiltY := toFloat (toDouble (s.tiltY - toDouble 0.05)) }
    else { s with tiltY := toFloat (toDouble (s.tiltY - toDouble 0.01)) }
  else s

/-- The `else` branch of the vertical test (lines 669-674), binary32. -/
def relaxYBlockF (s : Player) : Player :=
  if s.tiltY > toDouble 0.1 then
    { s with tiltY := toFloat (toDouble (s.tiltY - toDouble 0.05)) }
  else if s.tiltY < -toDouble 0.1 then
    { s with tiltY := toFloat (toDouble (s.tiltY + toDouble 0.05)) }
  else { s with tiltY := 0 }

/-- The first top-level statement of `update` (lines 603-642), binary32. -/
def horizBlockF (inp : Input) (s : Player) : Player :=
  if inp.left || inp.right then
    let s := if inp.left then leftBlockF s else s
    let s := if inp.right then rightBlockF s else s
    s
  else relaxXBlockF s

/-- The second top-level statement of `update` (lines 644-675), binary32. -/
def vertBlockF (inp : Input) (s : Player) : Player :=
  if inp.up || inp.down then
    let s := if inp.up then upBlockF s else s
    let s := if inp.down then downBlockF s else s
    s
  else relaxYBlockF s

/-- Effect of the guarded `+=` on a `float` tilt. -/
def tiltIncF (t : ℚ) : ℚ :=
  if t < toFloat (PIf / 4) then
    (if t < 0 then toFloat (toDouble (t + toDouble 0.05))
     else toFloat (toDouble (t + toDouble 0.01)))
  else t

/-- Effect of the guarded `-=` on a `float` tilt. -/
def tiltDecF (t : ℚ) : ℚ :=
  if t > toFloat (-PIf / 4) then
    (if t > 0 then toFloat (toDouble (t - toDouble 0.05))
     else toFloat (toDouble (t - toDouble 0.01)))
  else t

/-- Effect of the relaxation branch on a `float` tilt. -/
def tiltRelaxF (t : ℚ) : ℚ :=
  if t > toDouble 0.1 then toFloat (toDouble (t - toDouble 0.05))
  else if t < -toDouble 0.1 then toFloat (toDouble (t + toDouble 0.05))
  else 0

/-- Effect of `if (player.x > -5) player.x -= 0.1` on the `float` offset. -/
def xDecF (x : ℚ) : ℚ := if x > -5 then toFloat (toDouble (x - toDouble 0.1)) else x

/-- Effect of `if (player.x < 5) player.x += 0.1` on the `float` offset. -/
def xIncF (x : ℚ) : ℚ := if x < 5 then toFloat (toDouble (x + toDouble 0.1)) else x

/-- The offset after one `updateFloat`, from the flags and the offset before. -/
def horizXF (inp : Input) (x : ℚ) : ℚ :=
  let x := if inp.left then xDecF x else x
  if inp.right then xIncF x else x

/-- A tilt after one `updateFloat`, from the two flags of its axis and the tilt before. -/
def axisTiltF (pos neg : Bool) (t : ℚ) : ℚ :=
  if pos || neg then
    let t := if pos then tiltIncF t else t
    if neg then tiltDecF t else t
  else tiltRelaxF t

/-! ## Lemmas on `update` -/

theorem update_eq_blocks (inp : Input) (s : Player) :
    update inp s = vertBlock inp (horizBlock inp s) := rfl

theorem leftBlock_eq (s : Player) :
    leftBlock s = { s with x := xDec s.x, tiltX := tiltInc s.tiltX } := by
  rcases s with ⟨x, y, tx, ty, h⟩
  simp only [leftBlock, xDec, tiltInc]
  split_ifs <;> rfl

theorem rightBlock_eq (s : Player) :
    rightBlock s = { s with x := xInc s.x, tiltX := tiltDec s.tiltX } := by
  rcases s with ⟨x, y, tx, ty, h⟩
  simp only [rightBlock, xInc, tiltDec]
  split_ifs <;> rfl

theorem relaxXBlock_eq (s : Player) :
    relaxXBlock s = { s with tiltX := tiltRelax s.tiltX } := by
  rcases s with ⟨x, y, tx, ty, h⟩
  simp only [relaxXBlock, tiltRelax]
  split_ifs <;> rfl

theorem upBlock_eq (s : Player) :
    upBlock s = { s with tiltY := tiltInc s.tiltY } := by
  rcases s with ⟨x, y, tx, ty, h⟩
  simp only [upBlock, tiltInc]
  split_ifs <;> rfl

theorem downBlock_eq (s : Player) :
    downBlock s = { s with tiltY := tiltDec s.tiltY } := by
  rcases s with ⟨x, y, tx, ty, h⟩
  simp only [downBlock, tiltDec]
  split_ifs <;> rfl

theorem relaxYBlock_eq (s : Player) :
    relaxYBlock s = { s with tiltY := tiltRelax s.tiltY } := by
  rcases s with ⟨x, y, tx, ty, h⟩
  simp only [relaxYBlock, tiltRelax]
  split_ifs <;> rfl

/-- One call of `update` field by field: the offset and the two tilts each
follow their own scalar law; `y` and `health` are not touched. -/
theorem update_eq (inp : Input) (s : Player) :
    update inp s =
      { s with x := horizX inp s.x
               tiltX := axisTilt inp.left inp.right s.tiltX
               tiltY := axisTilt inp.up inp.down s.tiltY } := by
  rw [update_eq_blocks]
  rcases inp with ⟨l, r, u, d⟩
  rcases s with ⟨x, y, tx, ty, h⟩
  cases l <;> cases r <;> cases u <;> cases d <;>
    simp [vertBlock, horizBlock, leftBlock_eq, rightBlock_eq, relaxXBlock_eq, upBlock_eq,
      downBlock_eq, relaxYBlock_eq, horizX, axisTilt]

theorem update_x (inp : Input) (s : Player) : (update inp s).x = horizX inp s.x := by
  rw [update_eq]

theorem update_tiltX (inp : Input) (s : Player) :
    (update inp s).tiltX = axisTilt inp.left inp.right s.tiltX := by
  rw [update_eq]

theorem update_tiltY (inp : Input) (s : Player) :
    (update inp s).tiltY = axisTilt inp.up inp.down s.tiltY := by
  rw [update_eq]

theorem run_nil (s : Player) : run [] s = s := rfl

theorem run_cons (inp : Input) (inps : List Input) (s : Player) :
    run (inp :: inps) s = run inps (update inp s) := rfl

/-- An invariant of one `update` is an invariant of every run. -/
theorem run_invariant (P : Player → Prop) (hP : ∀ inp s, P s → P (update inp s)) :
    ∀ (inps : List Input) (s : Player), P s → P (run inps s) := by
  intro inps
  induction inps with
  | nil => intro s hs; exact hs
  | cons inp inps ih => intro s hs; exact ih _ (hP inp s hs)

/-- A tilt strictly inside `(-tiltBound, tiltBound)` stays there under any flags. -/
theorem axisTilt_bound (pos neg : Bool) (t : ℚ) (h : -tiltBound < t ∧ t < tiltBound) :
    -tiltBound < axisTilt pos neg t ∧ axisTilt pos neg t < tiltBound := by
  obtain ⟨h1, h2⟩ := h
  simp only [tiltBound, PI] at h1 h2 ⊢
  cases pos <;> cases neg <;>
    simp only [axisTilt, tiltInc, tiltDec, tiltRelax, PI, Bool.or_self, Bool.or_true,
      Bool.or_false, Bool.true_or, if_true, if_false, Bool.false_eq_true] <;>
    split_ifs <;> constructor <;> norm_num at * <;> linarith

/-- The offset stays a multiple of `1/10` between `-5` and `5`. -/
theorem horizX_grid (inp : Input) (x : ℚ) (h : ∃ m : ℤ, x = m / 10 ∧ -50 ≤ m ∧ m ≤ 50) :
    ∃ m : ℤ, horizX inp x = m / 10 ∧ -50 ≤ m ∧ m ≤ 50 := by
  have dec : ∀ x : ℚ, (∃ m : ℤ, x = m / 10 ∧ -50 ≤ m ∧ m ≤ 50) →
      ∃ m : ℤ, xDec x = m / 10 ∧ -50 ≤ m ∧ m ≤ 50 := by
    rintro x ⟨m, rfl, h1, h2⟩
    unfold xDec
    split_ifs with hc
    · have hm : (-50 : ℚ) < m := by linarith
      have hm' : -50 < m := by exact_mod_cast hm
      refine ⟨m - 1, ?_, by omega, by omega⟩
      push_cast
      norm_num
      ring
    · exact ⟨m, rfl, h1, h2⟩
  have inc : ∀ x : ℚ, (∃ m : ℤ, x = m / 10 ∧ -50 ≤ m ∧ m ≤ 50) →
      ∃ m : ℤ, xInc x = m / 10 ∧ -50 ≤ m ∧ m ≤ 50 := by
    rintro x ⟨m, rfl, h1, h2⟩
    unfold xInc
    split_ifs with hc
    · have hm : (m : ℚ) < 50 := by linarith
      have hm' : m < 50 := by exact_mod_cast hm
      refine ⟨m + 1, ?_, by omega, by omega⟩
      push_cast
      norm_num
      ring
    · exact ⟨m, rfl, h1, h2⟩
  rcases inp with ⟨l, r, u, d⟩
  cases l <;> cases r <;> simp only [horizX, if_true, if_false, Bool.false_eq_true]
  · exact h
  · exact inc x h
  · exact dec x h
  · exact inc _ (dec x h)

theorem tiltRelax_zero : tiltRelax 0 = 0 := by
  norm_num [tiltRelax]

theorem tiltRelax_iterate_zero (m : ℕ) : tiltRelax^[m] 0 = 0 := by
  induction m with
  | zero => rfl
  | succ m ih => rw [Function.iterate_succ_apply, tiltRelax_zero, ih]

/-- A tilt of size at most `0.05 * m` is relaxed to `0` by `m` relaxation steps. -/
theorem tiltRelax_iterate (m : ℕ) : ∀ t : ℚ, |t| ≤ 0.05 * m → tiltRelax^[m] t = 0 := by
  induction m with
  | zero =>
    intro t ht
    have : |t| ≤ 0 := by simpa using ht
    have : t = 0 := abs_nonpos_iff.mp this
    simp [this]
  | succ m ih =>
    intro t ht
    rw [Function.iterate_succ_apply]
    push_cast at ht
    have hab := abs_le.mp ht
    unfold tiltRelax
    split_ifs with h1 h2
    · apply ih
      rw [abs_le]
      constructor <;> norm_num at * <;> linarith
    · apply ih
      rw [abs_le]
      constructor <;> norm_num at * <;> linarith
    · exact tiltRelax_iterate_zero m

theorem run_no_input_tiltX (m : ℕ) : ∀ s : Player,
    (run (List.replicate m { left := false, right := false, up := false, down := false }) s).tiltX
      = tiltRelax^[m] s.tiltX := by
  induction m with
  | zero => intro s; rfl
  | succ m ih =>
    intro s
    rw [List.replicate_succ, run_cons, ih, Function.iterate_succ_apply, update_tiltX]
    simp [axisTilt]

theorem run_no_input_tiltY (m : ℕ) : ∀ s : Player,
    (run (List.replicate m { left := false, right := false, up := false, down := false }) s).tiltY
      = tiltRelax^[m] s.tiltY := by
  induction m with
  | zero => intro s; rfl
  | succ m ih =>
    intro s
    rw [List.replicate_succ, run_cons, ih, Function.iterate_succ_apply, update_tiltY]
    simp [axisTilt]

theorem ceil_steps_bound (t : ℚ) (m : ℕ) (h : Nat.ceil (|t| / 0.05) ≤ m) : |t| ≤ 0.05 * m := by
  have h1 : |t| / 0.05 ≤ (m : ℚ) := Nat.ceil_le.mp h
  have h2 : (0 : ℚ) < 0.05 := by norm_num
  rw [div_le_iff₀ h2] at h1
  linarith

/-! ## The pose update in exact arithmetic: claims C2, C9, C10 -/

/-- C2, counterexample.  The pose with `tiltX = 0.78` and `tiltY = 0` has both
tilts in `[-PI/4, PI/4]` (and in `[-π/4, π/4]` for the real number π as well),
and one call of `update` with the left flag set gives `tiltX = 0.79`, which is
above `PI/4 = 0.7853975` and above the real `π/4`. -/
theorem update_tiltX_leaves_quarter_pi :
    (-(PI / 4) ≤ (0.78 : ℚ) ∧ (0.78 : ℚ) ≤ PI / 4) ∧
    (-(PI / 4) ≤ (0 : ℚ) ∧ (0 : ℚ) ≤ PI / 4) ∧
    (-(Real.pi / 4) ≤ (0.78 : ℝ) ∧ (0.78 : ℝ) ≤ Real.pi / 4) ∧
    (run [{ left := true, right := false, up := false, down := false }]
      { x := 0, y := 0, tiltX := 0.78, tiltY := 0, health := 100 }).tiltX = 0.79 ∧
    PI / 4 < (0.79 : ℚ) ∧ Real.pi / 4 < (0.79 : ℝ) := by
  have hpi1 := Real.pi_gt_d2
  have hpi2 := Real.pi_lt_d2
  have hpos := Real.pi_pos
  refine ⟨by norm_num [PI], by norm_num [PI], ⟨by linarith, by linarith⟩, ?_, by norm_num [PI],
    by linarith⟩
  rw [run_cons, run_nil, update_tiltX]
  norm_num [axisTilt, tiltInc, PI]

/-- C2, amended.  From a pose whose `tiltX` and `tiltY` both lie in
`[-PI/4, PI/4]` (`PI` the program's constant `3.14159`), after each call of
`update` along any finite sequence of input-flag settings both tilts lie
strictly between `-PI/4 - 0.01` and `PI/4 + 0.01`. -/
theorem update_tilts_within_quarter_pi_plus_step (s : Player) (inps : List Input) (k : ℕ)
    (hx : -(PI / 4) ≤ s.tiltX ∧ s.tiltX ≤ PI / 4)
    (hy : -(PI / 4) ≤ s.tiltY ∧ s.tiltY ≤ PI / 4) :
    (-(PI / 4) - 0.01 < (run (inps.take k) s).tiltX ∧
      (run (inps.take k) s).tiltX < PI / 4 + 0.01) ∧
    (-(PI / 4) - 0.01 < (run (inps.take k) s).tiltY ∧
      (run (inps.take k) s).tiltY < PI / 4 + 0.01) := by
  have key := run_invariant
    (fun p => (-tiltBound < p.tiltX ∧ p.tiltX < tiltBound) ∧
      (-tiltBound < p.tiltY ∧ p.tiltY < tiltBound))
    (fun inp p hp => by
      beta_reduce at hp ⊢
      rw [update_tiltX, update_tiltY]
      exact ⟨axisTilt_bound _ _ _ hp.1, axisTilt_bound _ _ _ hp.2⟩)
    (inps.take k) s
    (by
      simp only [tiltBound]
      refine ⟨⟨?_, ?_⟩, ⟨?_, ?_⟩⟩ <;> norm_num <;> linarith [hx.1, hx.2, hy.1, hy.2])
  simp only [tiltBound] at key
  refine ⟨⟨?_, key.1.2⟩, ⟨?_, key.2.2⟩⟩
  · linarith [key.1.1]
  · linarith [key.2.1]

/-- C2, amended, at the pose of the counterexample: `tiltX = 0.78`, one call
with the left flag set. -/
theorem update_tilts_within_quarter_pi_plus_step_witness :
    (-(PI / 4) - 0.01 <
        (run (List.take 1 [{ left := true, right := false, up := false, down := false }])
          { x := 0, y := 0, tiltX := 0.78, tiltY := 0, health := 100 }).tiltX ∧
      (run (List.take 1 [{ left := true, right := false, up := false, down := false }])
          { x := 0, y := 0, tiltX := 0.78, tiltY := 0, health := 100 }).tiltX < PI / 4 + 0.01) ∧
    (-(PI / 4) - 0.01 <
        (run (List.take 1 [{ left := true, right := false, up := false, down := false }])
          { x := 0, y := 0, tiltX := 0.78, tiltY := 0, health := 100 }).tiltY ∧
      (run (List.take 1 [{ left := true, right := false, up := false, down := false }])
          { x := 0, y := 0, tiltX := 0.78, tiltY := 0, health := 100 }).tiltY < PI / 4 + 0.01) :=
  update_tilts_within_quarter_pi_plus_step
    { x := 0, y := 0, tiltX := 0.78, tiltY := 0, health := 100 }
    [{ left := true, right := false, up := false, down := false }] 1
    (by norm_num [PI]) (by norm_num [PI])

/-- Exact arithmetic only (see `updateFloat` for the values the program
computes): starting from the initial `player`, after each call of `update`
along any finite sequence of input-flag settings the offset lies in `[-5, 5]`. -/
theorem update_offset_within_five (inps : List Input) (k : ℕ) :
    -5 ≤ (run (inps.take k) player).x ∧ (run (inps.take k) player).x ≤ 5 := by
  have key := run_invariant
    (fun p => ∃ m : ℤ, p.x = m / 10 ∧ -50 ≤ m ∧ m ≤ 50)
    (fun inp p hp => by beta_reduce at hp ⊢; rw [update_x]; exact horizX_grid inp p.x hp)
    (inps.take k) player ⟨0, by simp [player], by omega, by omega⟩
  obtain ⟨m, hm, h1, h2⟩ := key
  rw [hm]
  have h1' : (-50 : ℚ) ≤ m := by exact_mod_cast h1
  have h2' : (m : ℚ) ≤ 50 := by exact_mod_cast h2
  constructor <;> linarith

/-- Exact arithmetic only: from a nonzero `tiltX` (likewise `tiltY`), `m`
calls of `update` with all four flags clear leave that tilt exactly `0` for
every `m ≥ ⌈|tilt| / 0.05⌉`. -/
theorem update_no_input_tilt_reaches_zero (s : Player) (m : ℕ) :
    (s.tiltX ≠ 0 → Nat.ceil (|s.tiltX| / 0.05) ≤ m →
      (run (List.replicate m { left := false, right := false, up := false, down := false })
        s).tiltX = 0) ∧
    (s.tiltY ≠ 0 → Nat.ceil (|s.tiltY| / 0.05) ≤ m →
      (run (List.replicate m { left := false, right := false, up := false, down := false })
        s).tiltY = 0) := by
  constructor
  · intro _ hm
    rw [run_no_input_tiltX]
    exact tiltRelax_iterate m _ (ceil_steps_bound _ _ hm)
  · intro _ hm
    rw [run_no_input_tiltY]
    exact tiltRelax_iterate m _ (ceil_steps_bound _ _ hm)

/-- Exact arithmetic only: for a pose with offset `> -5` and `tiltX < PI / 4`
(`PI = 3.14159`), one call of `update` with only the left flag set lowers the
offset by `0.1` and raises `tiltX` by `0.05` when it is negative and by `0.01`
when it is `≥ 0`. -/
theorem update_left_step (s : Player) (hx : s.x > -5) (ht : s.tiltX < PI / 4) :
    (update { left := true, right := false, up := false, down := false } s).x = s.x - 0.1 ∧
    (s.tiltX < 0 →
      (update { left := true, right := false, up := false, down := false } s).tiltX
        = s.tiltX + 0.05) ∧
    (0 ≤ s.tiltX →
      (update { left := true, right := false, up := false, down := false } s).tiltX
        = s.tiltX + 0.01) ∧
    (s.x = 0 → s.tiltX = 0 →
      (update { left := true, right := false, up := false, down := false } s).x = -0.1 ∧
      (update { left := true, right := false, up := false, down := false } s).tiltX = 0.01) := by
  have e1 : (update { left := true, right := false, up := false, down := false } s).x
      = s.x - 0.1 := by
    rw [update_x]
    simp [horizX, xDec, hx]
  have e2 : s.tiltX < 0 →
      (update { left := true, right := false, up := false, down := false } s).tiltX
        = s.tiltX + 0.05 := by
    intro h
    rw [update_tiltX]
    simp [axisTilt, tiltInc, ht, h]
  have e3 : 0 ≤ s.tiltX →
      (update { left := true, right := false, up := false, down := false } s).tiltX
        = s.tiltX + 0.01 := by
    intro h
    rw [update_tiltX]
    simp [axisTilt, tiltInc, ht, not_lt.mpr h]
  refine ⟨e1, e2, e3, ?_⟩
  intro h0 ht0
  rw [e1, e3 (le_of_eq ht0.symm), h0, ht0]
  norm_num

/-- C9.  The right step mirrors the left step: if `update` with only the left
flag set takes offset and `tiltX` from `(x, t)` to `(x', t')`, then `update`
with only the right flag set takes `(-x, -t)` to `(-x', -t')`, whatever the
other fields of the mirrored pose are. -/
theorem update_right_mirrors_left (s : Player) (y tiltY : ℚ) (health : Int) :
    (update { left := false, right := true, up := false, down := false }
        { x := -s.x, y := y, tiltX := -s.tiltX, tiltY := tiltY, health := health }).x
      = -(update { left := true, right := false, up := false, down := false } s).x ∧
    (update { left := false, right := true, up := false, down := false }
        { x := -s.x, y := y, tiltX := -s.tiltX, tiltY := tiltY, health := health }).tiltX
      = -(update { left := true, right := false, up := false, down := false } s).tiltX := by
  simp only [update_x, update_tiltX]
  constructor
  · simp only [horizX, xInc, xDec, if_true, if_false, Bool.false_eq_true]
    split_ifs <;> linarith
  · simp only [axisTilt, tiltInc, tiltDec, Bool.or_true, Bool.or_false, if_true, if_false,
      Bool.false_eq_true]
    split_ifs <;> linarith

/-- C10.  With both the left and the right flag set (any up and down flags),
one call of `update` gives the offset and `tiltX` obtained by a left-only call
followed by a right-only call; the tilt is the guarded decrement of the guarded
increment, so the relaxation branch takes no part. -/
theorem update_left_right_is_left_then_right (s : Player) (u d : Bool) :
    (update { left := true, right := true, up := u, down := d } s).x
      = (update { left := false, right := true, up := false, down := false }
          (update { left := true, right := false, up := false, down := false } s)).x ∧
    (update { left := true, right := true, up := u, down := d } s).tiltX
      = (update { left := false, right := true, up := false, down := false }
          (update { left := true, right := false, up := false, down := false } s)).tiltX ∧
    (update { left := true, right := true, up := u, down := d } s).x = xInc (xDec s.x) ∧
    (update { left := true, right := true, up := u, down := d } s).tiltX
      = tiltDec (tiltInc s.tiltX) := by
  simp [update_x, update_tiltX, horizX, axisTilt]

/-! ## Lemmas on rounding -/

theorem roundEven_err (q : ℚ) : |(roundEven q : ℚ) - q| ≤ 1 / 2 := by
  have h1 := Int.floor_le q
  have h2 := Int.lt_floor_add_one q
  unfold roundEven
  split_ifs <;> push_cast <;> rw [abs_le] <;> constructor <;> linarith

/-- The nearest integer, from a candidate `n` within one half of `q` that is
even when it is exactly one half away. -/
theorem roundEven_eq (q : ℚ) (n : ℤ)
    (h : -(1 / 2) ≤ q - n ∧ q - n ≤ 1 / 2 ∧ ((q - n = 1 / 2 ∨ q - n = -(1 / 2)) → n % 2 = 0)) :
    roundEven q = n := by
  obtain ⟨h1, h2, h3⟩ := h
  have f1 := Int.floor_le q
  have f2 := Int.lt_floor_add_one q
  unfold roundEven
  split_ifs with c1 c2 c3
  · have a : ((⌊q⌋ - n : ℤ) : ℚ) < 1 := by push_cast; linarith
    have b : (-1 : ℚ) < ((⌊q⌋ - n : ℤ) : ℚ) := by push_cast; linarith
    have a' : ⌊q⌋ - n < 1 := by exact_mod_cast a
    have b' : -1 < ⌊q⌋ - n := by exact_mod_cast b
    omega
  · have a : ((⌊q⌋ + 1 - n : ℤ) : ℚ) < 1 := by push_cast; linarith
    have b : (-1 : ℚ) < ((⌊q⌋ + 1 - n : ℤ) : ℚ) := by push_cast; linarith
    have a' : ⌊q⌋ + 1 - n < 1 := by exact_mod_cast a
    have b' : -1 < ⌊q⌋ + 1 - n := by exact_mod_cast b
    omega
  · have hq : q - ⌊q⌋ = 1 / 2 := le_antisymm (not_lt.mp c2) (not_lt.mp c1)
    have a : ((⌊q⌋ - n : ℤ) : ℚ) < 1 := by push_cast; linarith
    have b : (-2 : ℚ) < ((⌊q⌋ - n : ℤ) : ℚ) := by push_cast; linarith
    have a' : ⌊q⌋ - n < 1 := by exact_mod_cast a
    have b' : -2 < ⌊q⌋ - n := by exact_mod_cast b
    by_cases hn : n = ⌊q⌋
    · exact hn.symm
    · have hn1 : n = ⌊q⌋ + 1 := by omega
      have : q - n = -(1 / 2) := by rw [hn1]; push_cast; linarith
      have := h3 (Or.inr this)
      omega
  · have hq : q - ⌊q⌋ = 1 / 2 := le_antisymm (not_lt.mp c2) (not_lt.mp c1)
    have a : ((⌊q⌋ - n : ℤ) : ℚ) < 1 := by push_cast; linarith
    have b : (-2 : ℚ) < ((⌊q⌋ - n : ℤ) : ℚ) := by push_cast; linarith
    have a' : ⌊q⌋ - n < 1 := by exact_mod_cast a
    have b' : -2 < ⌊q⌋ - n := by exact_mod_cast b
    by_cases hn : n = ⌊q⌋
    · have : q - n = 1 / 2 := by rw [hn]; linarith
      have := h3 (Or.inl this)
      omega
    · omega

theorem log_eq_of_bounds (q : ℚ) (e : ℤ) (h1 : (2 : ℚ) ^ e ≤ |q|)
    (h2 : |q| < (2 : ℚ) ^ (e + 1)) : Int.log 2 |q| = e := by
  have hpos : 0 < |q| := lt_of_lt_of_le (by positivity) h1
  have a : e ≤ Int.log 2 |q| :=
    (Int.zpow_le_iff_le_log (by norm_num) hpos).mp (by exact_mod_cast h1)
  have b : Int.log 2 |q| < e + 1 :=
    (Int.lt_zpow_iff_log_lt (by norm_num) hpos).mp (by exact_mod_cast h2)
  omega

/-- The value of a rounding, from the exponent `e` and the significand `n` of the result. -/
theorem roundBin_eval (prec : ℕ) (emin : ℤ) (q : ℚ) (e n : ℤ)
    (h : RoundsTo prec emin q e n) :
    roundBin prec emin q = n * (2 : ℚ) ^ (e - (prec - 1)) := by
  obtain ⟨he, h1, h2, hn⟩ := h
  have hl := log_eq_of_bounds q e h1 h2
  simp only [roundBin, hl, max_eq_left he]
  rw [roundEven_eq _ n hn]

theorem roundBin_zero (prec : ℕ) (emin : ℤ) : roundBin prec emin 0 = 0 := by
  simp [roundBin, roundEven]

/-- A rounding is off by at most half the spacing at the rounded number. -/
theorem roundBin_err_spacing (prec : ℕ) (emin : ℤ) (q : ℚ) :
    |roundBin prec emin q - q| ≤ (2 : ℚ) ^ (max (Int.log 2 |q|) emin - (prec - 1)) / 2 := by
  simp only [roundBin]
  set u : ℚ := (2 : ℚ) ^ (max (Int.log 2 |q|) emin - (prec - 1)) with hu
  have hpos : 0 < u := by positivity
  have e := roundEven_err (q / u)
  have : (roundEven (q / u) : ℚ) * u - q = ((roundEven (q / u) : ℚ) - q / u) * u := by
    field_simp
  rw [this, abs_mul, abs_of_pos hpos]
  calc |(roundEven (q / u) : ℚ) - q / u| * u ≤ 1 / 2 * u :=
        mul_le_mul_of_nonneg_right e hpos.le
    _ = u / 2 := by ring

/-- Below `2 ^ (E + 1)` in size a rounding is off by at most `2 ^ (E - prec)`. -/
theorem roundBin_err (prec : ℕ) (emin : ℤ) (q : ℚ) (E : ℤ) (hE : emin ≤ E)
    (hq : |q| < (2 : ℚ) ^ (E + 1)) :
    |roundBin prec emin q - q| ≤ (2 : ℚ) ^ (E - prec) := by
  by_cases h0 : q = 0
  · subst h0
    rw [roundBin_zero]
    simp only [sub_zero, abs_zero]
    positivity
  · have hpos : 0 < |q| := abs_pos.mpr h0
    have hl : Int.log 2 |q| < E + 1 :=
      (Int.lt_zpow_iff_log_lt (by norm_num) hpos).mp (by exact_mod_cast hq)
    have hm : max (Int.log 2 |q|) emin ≤ E := max_le (by omega) hE
    have h := roundBin_err_spacing prec emin q
    have hle : (2 : ℚ) ^ (max (Int.log 2 |q|) emin - (prec - 1)) ≤ (2 : ℚ) ^ (E - (prec - 1)) :=
      zpow_le_zpow_right₀ (by norm_num) (by omega)
    have hhalf : (2 : ℚ) ^ (E - (prec - 1)) / 2 = (2 : ℚ) ^ (E - prec) := by
      have : E - ((prec : ℤ) - 1) = (E - prec) + 1 := by ring
      rw [this, zpow_add_one₀ (by norm_num)]
      ring
    linarith

theorem updateFloat_eq_blocks (inp : Input) (s : Player) :
    updateFloat inp s = vertBlockF inp (horizBlockF inp s) := rfl

theorem leftBlockF_eq (s : Player) :
    leftBlockF s = { s with x := xDecF s.x, tiltX := tiltIncF s.tiltX } := by
  rcases s with ⟨x, y, tx, ty, h⟩
  simp only [leftBlockF, xDecF, tiltIncF]
  split_ifs <;> rfl

theorem rightBlockF_eq (s : Player) :
    rightBlockF s = { s with x := xIncF s.x, tiltX := tiltDecF s.tiltX } := by
  rcases s with ⟨x, y, tx, ty, h⟩
  simp only [rightBlockF, xIncF, tiltDecF]
  split_ifs <;> rfl

theorem relaxXBlockF_eq (s : Player) :
    relaxXBlockF s = { s with tiltX := tiltRelaxF s.tiltX } := by
  rcases s with ⟨x, y, tx, ty, h⟩
  simp only [relaxXBlockF, tiltRelaxF]
  split_ifs <;> rfl

theorem upBlockF_eq (s : Player) :
    upBlockF s = { s with tiltY := tiltIncF s.tiltY } := by
  rcases s with ⟨x, y, tx, ty, h⟩
  simp only [upBlockF, tiltIncF]
  split_ifs <;> rfl

theorem downBlockF_eq (s : Player) :
    downBlockF s = { s with tiltY := tiltDecF s.tiltY } := by
  rcases s with ⟨x, y, tx, ty, h⟩
  simp only [downBlockF, tiltDecF]
  split_ifs <;> rfl

theorem relaxYBlockF_eq (s : Player) :
    relaxYBlockF s = { s with tiltY := tiltRelaxF s.tiltY } := by
  rcases s with ⟨x, y, tx, ty, h⟩
  simp only [relaxYBlockF, tiltRelaxF]
  split_ifs <;> rfl

/-- One call of `updateFloat` field by field. -/
theorem updateFloat_eq (inp : Input) (s : Player) :
    updateFloat inp s =
      { s with x := horizXF inp s.x
               tiltX := axisTiltF inp.left inp.right s.tiltX
               tiltY := axisTiltF inp.up inp.down s.tiltY } := by
  rw [updateFloat_eq_blocks]
  rcases inp with ⟨l, r, u, d⟩
  rcases s with ⟨x, y, tx, ty, h⟩
  cases l <;> cases r <;> cases u <;> cases d <;>
    simp [vertBlockF, horizBlockF, leftBlockF_eq, rightBlockF_eq, relaxXBlockF_eq, upBlockF_eq,
      downBlockF_eq, relaxYBlockF_eq, horizXF, axisTiltF]

theorem updateFloat_x (inp : Input) (s : Player) :
    (updateFloat inp s).x = horizXF inp s.x := by
  rw [updateFloat_eq]

theorem updateFloat_tiltX (inp : Input) (s : Player) :
    (updateFloat inp s).tiltX = axisTiltF inp.left inp.right s.tiltX := by
  rw [updateFloat_eq]

theorem updateFloat_tiltY (inp : Input) (s : Player) :
    (updateFloat inp s).tiltY = axisTiltF inp.up inp.down s.tiltY := by
  rw [updateFloat_eq]

theorem runFloat_nil (s : Player) : runFloat [] s = s := rfl

theorem runFloat_cons (inp : Input) (inps : List Input) (s : Player) :
    runFloat (inp :: inps) s = runFloat inps (updateFloat inp s) := rfl

theorem toDouble_tenth : toDouble 0.1 = 3602879701896397 / 36028797018963968 := by
  rw [toDouble, roundBin_eval 53 (-1022) 0.1 (-4) 7205759403792794
    (by norm_num [RoundsTo, abs_lt, le_abs])]
  norm_num

theorem toDouble_twentieth : toDouble 0.05 = 3602879701896397 / 72057594037927936 := by
  rw [toDouble, roundBin_eval 53 (-1022) 0.05 (-5) 7205759403792794
    (by norm_num [RoundsTo, abs_lt, le_abs])]
  norm_num

theorem toDouble_hundredth : toDouble 0.01 = 5764607523034235 / 576460752303423488 := by
  rw [toDouble, roundBin_eval 53 (-1022) 0.01 (-7) 5764607523034235
    (by norm_num [RoundsTo, abs_lt, le_abs])]
  norm_num

theorem PIf_eq : PIf = 823549 / 262144 := by
  have h1 : toDouble 3.14159 = 3537115888337719 / 1125899906842624 := by
    rw [toDouble, roundBin_eval 53 (-1022) 3.14159 1 7074231776675438
      (by norm_num [RoundsTo, abs_lt, le_abs])]
    norm_num
  rw [PIf, h1, toFloat, roundBin_eval 24 (-126) _ 1 13176784 (by norm_num [RoundsTo, abs_lt, le_abs])]
  norm_num

theorem quarter_PIf : toFloat (PIf / 4) = 823549 / 1048576 := by
  rw [PIf_eq, toFloat, roundBin_eval 24 (-126) _ (-1) 13176784 (by norm_num [RoundsTo, abs_lt, le_abs])]
  norm_num

theorem neg_quarter_PIf : toFloat (-PIf / 4) = -(823549 / 1048576) := by
  rw [PIf_eq, toFloat, roundBin_eval 24 (-126) _ (-1) (-13176784)
    (by norm_num [RoundsTo, abs_lt, le_abs])]
  norm_num

/-! ### Error and grid of `float` and `double` conversions -/

theorem roundBin_err_rel (prec : ℕ) (emin : ℤ) (q : ℚ) :
    |roundBin prec emin q - q| ≤ |q| * (2 : ℚ) ^ (-(prec : ℤ)) + (2 : ℚ) ^ (emin - prec) := by
  by_cases h0 : q = 0
  · subst h0
    rw [roundBin_zero]
    simp only [sub_zero, abs_zero, zero_mul, zero_add]
    positivity
  · have hpos : 0 < |q| := abs_pos.mpr h0
    have h := roundBin_err_spacing prec emin q
    have hlog : (2 : ℚ) ^ (Int.log 2 |q|) ≤ |q| := by
      have h2 : 1 < 2 := by norm_num
      have := @Int.zpow_log_le_self ℚ _ _ 2 |q| h2 hpos
      exact_mod_cast this
    have key : ∀ e : ℤ, (2 : ℚ) ^ (e - ((prec : ℤ) - 1)) / 2 = (2 : ℚ) ^ e * (2 : ℚ) ^ (-(prec : ℤ)) := by
      intro e
      have : e - ((prec : ℤ) - 1) = e + -(prec : ℤ) + 1 := by ring
      rw [this, zpow_add_one₀ (by norm_num), zpow_add₀ (by norm_num)]
      ring
    have hp : (0 : ℚ) < (2 : ℚ) ^ (-(prec : ℤ)) := by positivity
    rcases le_total (Int.log 2 |q|) emin with hc | hc
    · rw [max_eq_right hc, key] at h
      have e2 : (2 : ℚ) ^ emin * (2 : ℚ) ^ (-(prec : ℤ)) = (2 : ℚ) ^ (emin - prec) := by
        rw [← zpow_add₀ (by norm_num)]
        rfl
      have : 0 ≤ |q| * (2 : ℚ) ^ (-(prec : ℤ)) := by positivity
      linarith
    · rw [max_eq_left hc, key] at h
      have : (2 : ℚ) ^ (Int.log 2 |q|) * (2 : ℚ) ^ (-(prec : ℤ)) ≤ |q| * (2 : ℚ) ^ (-(prec : ℤ)) :=
        mul_le_mul_of_nonneg_right hlog hp.le
      have : (0 : ℚ) ≤ (2 : ℚ) ^ (emin - prec) := by positivity
      linarith

theorem toFloat_err_rel (q : ℚ) : |toFloat q - q| ≤ |q| / 16777216 + 1 / 2 ^ 100 := by
  have h := roundBin_err_rel 24 (-126) q
  have e1 : (2 : ℚ) ^ (-((24 : ℕ) : ℤ)) = 1 / 16777216 := by norm_num
  have e2 : (2 : ℚ) ^ ((-126 : ℤ) - ((24 : ℕ) : ℤ)) ≤ 1 / 2 ^ 100 := by norm_num
  rw [e1] at h
  unfold toFloat
  linarith

theorem toDouble_err_rel (q : ℚ) : |toDouble q - q| ≤ |q| / 9007199254740992 + 1 / 2 ^ 100 := by
  have h := roundBin_err_rel 53 (-1022) q
  have e1 : (2 : ℚ) ^ (-((53 : ℕ) : ℤ)) = 1 / 9007199254740992 := by norm_num
  have e2 : (2 : ℚ) ^ ((-1022 : ℤ) - ((53 : ℕ) : ℤ)) ≤ 1 / 2 ^ 100 := by norm_num
  rw [e1] at h
  unfold toDouble
  linarith

theorem toFloat_err_lt256 (q : ℚ) (h : |q| < 256) : |toFloat q - q| ≤ 1 / 131072 := by
  have := roundBin_err 24 (-126) q 7 (by norm_num) (by norm_num; exact h)
  norm_num at this
  exact this

theorem toDouble_err_lt256 (q : ℚ) (h : |q| < 256) :
    |toDouble q - q| ≤ 1 / 70368744177664 := by
  have := roundBin_err 53 (-1022) q 7 (by norm_num) (by norm_num; exact h)
  norm_num at this
  exact this

theorem tiltRelaxF_zero : tiltRelaxF 0 = 0 := by
  unfold tiltRelaxF
  rw [toDouble_tenth]
  norm_num

theorem tiltRelaxF_iterate_zero (m : ℕ) : tiltRelaxF^[m] 0 = 0 := by
  induction m with
  | zero => rfl
  | succ m ih => rw [Function.iterate_succ_apply, tiltRelaxF_zero, ih]

/-- A tilt of size at most `0.1` is set to `0`. -/
theorem tiltRelaxF_small (t : ℚ) (h : |t| ≤ 1 / 10) : tiltRelaxF t = 0 := by
  rw [abs_le] at h
  unfold tiltRelaxF
  rw [toDouble_tenth]
  have a : ¬ t > 3602879701896397 / 36028797018963968 := by
    intro hc
    linarith [h.2]
  have b : ¬ t < -(3602879701896397 / 36028797018963968) := by
    intro hc
    linarith [h.1]
  rw [if_neg a, if_neg b]

/-- A tilt of size at most `256` is either set to `0` or moved towards `0` by
`0.05` up to a rounding error below `1 / 131000`. -/
theorem tiltRelaxF_step (t : ℚ) (h : |t| ≤ 256) :
    tiltRelaxF t = 0 ∨ |tiltRelaxF t| ≤ |t| - 1 / 20 + 1 / 131000 := by
  rw [abs_le] at h
  unfold tiltRelaxF
  rw [toDouble_tenth, toDouble_twentieth]
  split_ifs with h1 h2
  · right
    generalize hy : t - 3602879701896397 / 72057594037927936 = y
    have hy1 : |y| < 256 := by
      rw [abs_lt]
      constructor <;> linarith [h.1, h.2]
    have ed := toDouble_err_lt256 y hy1
    rw [abs_le] at ed
    rw [abs_lt] at hy1
    have hd1 : |toDouble y| < 256 := by
      rw [abs_lt]
      constructor <;> linarith [ed.1, ed.2, h.2]
    have ef := toFloat_err_lt256 (toDouble y) hd1
    rw [abs_le] at ef
    have ht : |t| = t := abs_of_pos (by linarith)
    rw [ht, abs_le]
    constructor <;> linarith [ed.1, ed.2, ef.1, ef.2]
  · right
    generalize hy : t + 3602879701896397 / 72057594037927936 = y
    have hy1 : |y| < 256 := by
      rw [abs_lt]
      constructor <;> linarith [h.1, h.2]
    have ed := toDouble_err_lt256 y hy1
    rw [abs_le] at ed
    rw [abs_lt] at hy1
    have hd1 : |toDouble y| < 256 := by
      rw [abs_lt]
      constructor <;> linarith [ed.1, ed.2, h.1]
    have ef := toFloat_err_lt256 (toDouble y) hd1
    rw [abs_le] at ef
    have ht : |t| = -t := abs_of_neg (by linarith)
    rw [ht, abs_le]
    constructor <;> linarith [ed.1, ed.2, ef.1, ef.2]
  · left
    rfl

/-- Tilts of size at most `256` and at most `0.1 + j (0.05 - 1 / 131000)` are
`0` after `j + 1` relaxation steps. -/
theorem tiltRelaxF_iterate (j : ℕ) : ∀ t : ℚ, |t| ≤ 256 →
    |t| ≤ 1 / 10 + j * (1 / 20 - 1 / 131000) → tiltRelaxF^[j + 1] t = 0 := by
  induction j with
  | zero =>
    intro t _ h2
    rw [Function.iterate_succ_apply, Function.iterate_zero_apply]
    apply tiltRelaxF_small
    simpa using h2
  | succ j ih =>
    intro t h1 h2
    rw [Function.iterate_succ_apply]
    rcases tiltRelaxF_step t h1 with h0 | hs
    · rw [h0]
      exact tiltRelaxF_iterate_zero _
    · push_cast at h2
      apply ih
      · linarith
      · linarith

theorem runFloat_no_input_tiltX (m : ℕ) : ∀ s : Player,
    (runFloat (List.replicate m { left := false, right := false, up := false, down := false })
      s).tiltX = tiltRelaxF^[m] s.tiltX := by
  induction m with
  | zero => intro s; rfl
  | succ m ih =>
    intro s
    rw [List.replicate_succ, runFloat_cons, ih, Function.iterate_succ_apply, updateFloat_tiltX]
    simp [axisTiltF]

theorem runFloat_no_input_tiltY (m : ℕ) : ∀ s : Player,
    (runFloat (List.replicate m { left := false, right := false, up := false, down := false })
      s).tiltY = tiltRelaxF^[m] s.tiltY := by
  induction m with
  | zero => intro s; rfl
  | succ m ih =>
    intro s
    rw [List.replicate_succ, runFloat_cons, ih, Function.iterate_succ_apply, updateFloat_tiltY]
    simp [axisTiltF]

/-- From a nonzero tilt of size at most `256`, `m ≥ ⌈|t| / 0.05⌉` relaxation
steps give `0`: the rounding errors of at most `5120` steps add up to less
than one step. -/
theorem tiltRelaxF_reaches_zero (t : ℚ) (m : ℕ) (h0 : t ≠ 0) (h1 : |t| ≤ 256)
    (hm : Nat.ceil (|t| / 0.05) ≤ m) : tiltRelaxF^[m] t = 0 := by
  have hb := ceil_steps_bound t m hm
  have hpos : 0 < |t| := abs_pos.mpr h0
  have hm0 : m ≠ 0 := by
    rintro rfl
    norm_num at hb
    exact h0 hb
  obtain ⟨j, rfl⟩ := Nat.exists_eq_succ_of_ne_zero hm0
  rcases Nat.lt_or_ge j 5121 with hj | hj
  · apply tiltRelaxF_iterate j t h1
    have hj' : (j : ℚ) ≤ 5120 := by exact_mod_cast Nat.lt_succ_iff.mp hj
    push_cast at hb
    norm_num at hb
    have : (j : ℚ) * (1 / 131000) ≤ 5120 * (1 / 131000) := by
      apply mul_le_mul_of_nonneg_right hj' (by norm_num)
    linarith
  · obtain ⟨d, rfl⟩ := Nat.exists_eq_add_of_le hj
    have e : 5121 + d + 1 = d + (5120 + 1) + 1 := by omega
    rw [Nat.succ_eq_add_one, e, Function.iterate_succ_apply, Function.iterate_add_apply]
    have := tiltRelaxF_iterate 5120 (tiltRelaxF t) ?_ ?_
    · rw [this]
      exact tiltRelaxF_iterate_zero d
    · rcases tiltRelaxF_step t h1 with h | h
      · rw [h]; norm_num
      · linarith
    · rcases tiltRelaxF_step t h1 with h | h
      · rw [h]; norm_num
      · norm_num
        linarith

/-- The tilt `2 ^ 21` is a fixed point of the relaxation: `2 ^ 21 - 0.05`
converted to `float` is `2 ^ 21` again. -/
theorem tiltRelaxF_absorbed : tiltRelaxF 2097152 = 2097152 := by
  unfold tiltRelaxF
  rw [toDouble_tenth, toDouble_twentieth, if_pos (by norm_num), toDouble,
    roundBin_eval 53 (-1022) _ 20 9007199039992627 (by norm_num [RoundsTo, abs_lt, le_abs])]
  have c1 : (9007199039992627 : ℤ) * (2 : ℚ) ^ ((20 : ℤ) - (((53 : ℕ) : ℤ) - 1))
      = 9007199039992627 / 4294967296 := by norm_num
  rw [c1, toFloat, roundBin_eval 24 (-126) _ 20 16777216
    (by norm_num [RoundsTo, abs_lt, le_abs])]
  norm_num

theorem tiltRelaxF_iterate_absorbed (m : ℕ) : tiltRelaxF^[m] 2097152 = 2097152 := by
  induction m with
  | zero => rfl
  | succ m ih => rw [Function.iterate_succ_apply, tiltRelaxF_absorbed, ih]

/-- C4, counterexample.  With the `float` arithmetic of the program the tilt
`2 ^ 21 = 2097152` is not changed by a call with all flags clear
(`2097152 - 0.05` rounds back to `2097152`), so after
`⌈2097152 / 0.05⌉ = 41943040` calls it still is `2097152`, not `0`. -/
theorem updateFloat_no_input_tilt_stuck :
    (2097152 : ℚ) ≠ 0 ∧ Nat.ceil (|(2097152 : ℚ)| / 0.05) ≤ 41943040 ∧
    (runFloat
      (List.replicate 41943040 { left := false, right := false, up := false, down := false })
      { x := 0, y := 0, tiltX := 2097152, tiltY := 0, health := 100 }).tiltX = 2097152 := by
  refine ⟨by norm_num, ?_, ?_⟩
  · rw [Nat.ceil_le]
    norm_num
  · rw [runFloat_no_input_tiltX]
    exact tiltRelaxF_iterate_absorbed _

/-- C4, amended.  From a nonzero `tiltX` of size at most `256` (likewise
`tiltY`), `m` calls of `update` with all four flags clear leave that tilt
exactly `0` for every `m ≥ ⌈|tilt| / 0.05⌉`, with the `float` arithmetic of
the program: the tilt is `0` after at most that many calls and stays `0`. -/
theorem updateFloat_no_input_tilt_reaches_zero (s : Player) (m : ℕ) :
    (s.tiltX ≠ 0 → |s.tiltX| ≤ 256 → Nat.ceil (|s.tiltX| / 0.05) ≤ m →
      (runFloat (List.replicate m { left := false, right := false, up := false, down := false })
        s).tiltX = 0) ∧
    (s.tiltY ≠ 0 → |s.tiltY| ≤ 256 → Nat.ceil (|s.tiltY| / 0.05) ≤ m →
      (runFloat (List.replicate m { left := false, right := false, up := false, down := false })
        s).tiltY = 0) := by
  constructor
  · intro h0 h1 hm
    rw [runFloat_no_input_tiltX]
    exact tiltRelaxF_reaches_zero _ m h0 h1 hm
  · intro h0 h1 hm
    rw [runFloat_no_input_tiltY]
    exact tiltRelaxF_reaches_zero _ m h0 h1 hm

/-- C4, amended, at `tiltX = 200` and `tiltY = -0.25` (both binary32 values):
`4000` and five calls. -/
theorem updateFloat_no_input_tilt_reaches_zero_witness :
    (runFloat
      (List.replicate 4000 { left := false, right := false, up := false, down := false })
      { x := 0, y := 0, tiltX := 200, tiltY := -(1 / 4), health := 100 }).tiltX = 0 ∧
    (runFloat (List.replicate 5 { left := false, right := false, up := false, down := false })
      { x := 0, y := 0, tiltX := 200, tiltY := -(1 / 4), health := 100 }).tiltY = 0 :=
  ⟨(updateFloat_no_input_tilt_reaches_zero
      { x := 0, y := 0, tiltX := 200, tiltY := -(1 / 4), health := 100 } 4000).1
      (by norm_num) (by norm_num [abs_le]) (by rw [Nat.ceil_le]; norm_num [abs_of_nonneg]),
   (updateFloat_no_input_tilt_reaches_zero
      { x := 0, y := 0, tiltX := 200, tiltY := -(1 / 4), health := 100 } 5).2
      (by norm_num) (by norm_num [abs_le]) (by rw [Nat.ceil_le]; norm_num [abs_of_neg])⟩

/-! ## The left step in binary32: claim C8 -/

/-- Adding a `double` constant `c` near `k` to a `float` and converting the
sum back to `float` is off from the exact `x + k` by at most
`(|x| + 1) / 2 ^ 23`. -/
theorem toFloat_add_err (x c k : ℚ) (hc : |c| ≤ 11 / 100) (hk : |c - k| ≤ 1 / 2 ^ 55) :
    |toFloat (toDouble (x + c)) - (x + k)| ≤ (|x| + 1) / 8388608 := by
  have a1 : |x + c| ≤ |x| + 11 / 100 := le_trans (abs_add x c) (by linarith)
  have a2 := toDouble_err_rel (x + c)
  have a3 : |toDouble (x + c)| ≤ |x + c| + |toDouble (x + c) - (x + c)| := by
    have := abs_add (x + c) (toDouble (x + c) - (x + c))
    simpa using this
  have a4 := toFloat_err_rel (toDouble (x + c))
  have a5 : |toFloat (toDouble (x + c)) - (x + k)| ≤
      |toFloat (toDouble (x + c)) - toDouble (x + c)| + |toDouble (x + c) - (x + c)|
        + |c - k| := by
    have := abs_add_three (toFloat (toDouble (x + c)) - toDouble (x + c))
      (toDouble (x + c) - (x + c)) (c - k)
    have e : toFloat (toDouble (x + c)) - toDouble (x + c) + (toDouble (x + c) - (x + c))
        + (c - k) = toFloat (toDouble (x + c)) - (x + k) := by ring
    rw [e] at this
    exact this
  have hx : 0 ≤ |x| := abs_nonneg x
  norm_num at a2 a4 hk ⊢
  linarith

theorem xDecF_zero : xDecF 0 = -13421773 / 134217728 := by
  unfold xDecF
  rw [if_pos (by norm_num), toDouble_tenth, zero_sub, toDouble,
    roundBin_eval 53 (-1022) _ (-4) (-7205759403792794)
      (by norm_num [RoundsTo, abs_lt, le_abs])]
  have c1 : ((-7205759403792794 : ℤ) : ℚ) * (2 : ℚ) ^ ((-4 : ℤ) - (((53 : ℕ) : ℤ) - 1))
      = -(3602879701896397 / 36028797018963968) := by norm_num
  rw [c1, toFloat, roundBin_eval 24 (-126) _ (-4) (-13421773)
    (by norm_num [RoundsTo, abs_lt, le_abs])]
  norm_num

theorem tiltIncF_zero : tiltIncF 0 = 5368709 / 536870912 := by
  unfold tiltIncF
  rw [quarter_PIf, if_pos (by norm_num), if_neg (by norm_num), toDouble_hundredth, zero_add,
    toDouble, roundBin_eval 53 (-1022) _ (-7) 5764607523034235
      (by norm_num [RoundsTo, abs_lt, le_abs])]
  have c1 : ((5764607523034235 : ℤ) : ℚ) * (2 : ℚ) ^ ((-7 : ℤ) - (((53 : ℕ) : ℤ) - 1))
      = 5764607523034235 / 576460752303423488 := by norm_num
  rw [c1, toFloat, roundBin_eval 24 (-126) _ (-7) 10737418
    (by norm_num [RoundsTo, abs_lt, le_abs])]
  norm_num

/-- C8, counterexample.  The `float` `823549 / 1048576 = 0.78539753...` is
below `π / 4`, and from it one call with only the left flag set leaves the
tilt unchanged instead of adding `0.01`; and from offset `0` the same call
gives the offset `-13421773 / 134217728 = -0.1000000015...`, not `-0.1`. -/
theorem updateFloat_left_step_fails :
    ((0 : ℚ) > -5 ∧ ((823549 / 1048576 : ℚ) : ℝ) < Real.pi / 4 ∧ (0 : ℚ) ≤ 823549 / 1048576) ∧
    (updateFloat { left := true, right := false, up := false, down := false }
      { x := 0, y := 0, tiltX := 823549 / 1048576, tiltY := 0, health := 100 }).tiltX
        = 823549 / 1048576 ∧
    (823549 / 1048576 : ℚ) ≠ 823549 / 1048576 + 0.01 ∧
    (updateFloat { left := true, right := false, up := false, down := false }
      { x := 0, y := 0, tiltX := 823549 / 1048576, tiltY := 0, health := 100 }).x
        = -13421773 / 134217728 ∧
    (-13421773 / 134217728 : ℚ) ≠ 0 - 0.1 := by
  have hpi := Real.pi_gt_d6
  refine ⟨⟨by norm_num, ?_, by norm_num⟩, ?_, by norm_num, ?_, by norm_num⟩
  · push_cast
    norm_num at hpi ⊢
    linarith
  · rw [updateFloat_tiltX]
    simp only [axisTiltF, tiltIncF, quarter_PIf]
    norm_num
  · rw [updateFloat_x]
    simp only [horizXF, if_true, if_false, Bool.false_eq_true]
    exact xDecF_zero

/-- C8, amended.  With the `float` arithmetic of the program, for a pose with
offset `> -5` and `tiltX` below the program's threshold
`GLOBALS.MATH.PI / 4 = 823549 / 1048576`, one call of `update` with only the
left flag set replaces the offset by `offset - 0.1` computed in `double` and
converted to `float`, within `(|offset| + 1) / 2 ^ 23` of `offset - 0.1`, and
`tiltX` by `tiltX + 0.05` when `tiltX < 0` and `tiltX + 0.01` when
`tiltX ≥ 0`, computed and rounded the same way; from offset `0` and
`tiltX = 0` the result is offset `-13421773 / 2 ^ 27` and
`tiltX = 5368709 / 2 ^ 29`. -/
theorem updateFloat_left_step (s : Player) (hx : s.x > -5)
    (ht : s.tiltX < toFloat (PIf / 4)) :
    (toFloat (PIf / 4) = 823549 / 1048576) ∧
    ((updateFloat { left := true, right := false, up := false, down := false } s).x
        = toFloat (toDouble (s.x - toDouble 0.1)) ∧
      |(updateFloat { left := true, right := false, up := false, down := false } s).x
        - (s.x - 0.1)| ≤ (|s.x| + 1) / 8388608) ∧
    (s.tiltX < 0 →
      (updateFloat { left := true, right := false, up := false, down := false } s).tiltX
        = toFloat (toDouble (s.tiltX + toDouble 0.05)) ∧
      |(updateFloat { left := true, right := false, up := false, down := false } s).tiltX
        - (s.tiltX + 0.05)| ≤ (|s.tiltX| + 1) / 8388608) ∧
    (0 ≤ s.tiltX →
      (updateFloat { left := true, right := false, up := false, down := false } s).tiltX
        = toFloat (toDouble (s.tiltX + toDouble 0.01)) ∧
      |(updateFloat { left := true, right := false, up := false, down := false } s).tiltX
        - (s.tiltX + 0.01)| ≤ (|s.tiltX| + 1) / 8388608) ∧
    (s.x = 0 → s.tiltX = 0 →
      (updateFloat { left := true, right := false, up := false, down := false } s).x
        = -13421773 / 134217728 ∧
      (updateFloat { left := true, right := false, up := false, down := false } s).tiltX
        = 5368709 / 536870912) := by
  have e1 : (updateFloat { left := true, right := false, up := false, down := false } s).x
      = toFloat (toDouble (s.x - toDouble 0.1)) := by
    rw [updateFloat_x]
    simp [horizXF, xDecF, hx]
  have e2 : s.tiltX < 0 →
      (updateFloat { left := true, right := false, up := false, down := false } s).tiltX
        = toFloat (toDouble (s.tiltX + toDouble 0.05)) := by
    intro h
    rw [updateFloat_tiltX]
    simp [axisTiltF, tiltIncF, ht, h]
  have e3 : 0 ≤ s.tiltX →
      (updateFloat { left := true, right := false, up := false, down := false } s).tiltX
        = toFloat (toDouble (s.tiltX + toDouble 0.01)) := by
    intro h
    rw [updateFloat_tiltX]
    simp [axisTiltF, tiltIncF, ht, not_lt.mpr h]
  refine ⟨quarter_PIf, ⟨e1, ?_⟩, ?_, ?_, ?_⟩
  · have key := toFloat_add_err s.x (-(3602879701896397 / 36028797018963968)) (-0.1)
      (by norm_num [abs_le]) (by norm_num [abs_le])
    have c1 : s.x + -(3602879701896397 / 36028797018963968)
        = s.x - 3602879701896397 / 36028797018963968 := by ring
    have c2 : s.x + -0.1 = s.x - 0.1 := by ring
    rw [c1, c2] at key
    rw [e1, toDouble_tenth]
    exact key
  · intro h
    refine ⟨e2 h, ?_⟩
    rw [e2 h, toDouble_twentieth]
    exact toFloat_add_err s.tiltX (3602879701896397 / 72057594037927936) 0.05
      (by norm_num [abs_le]) (by norm_num [abs_le])
  · intro h
    refine ⟨e3 h, ?_⟩
    rw [e3 h, toDouble_hundredth]
    exact toFloat_add_err s.tiltX (5764607523034235 / 576460752303423488) 0.01
      (by norm_num [abs_le]) (by norm_num [abs_le])
  · intro h0 ht0
    constructor
    · rw [updateFloat_x, h0]
      simp only [horizXF, if_true, if_false, Bool.false_eq_true]
      exact xDecF_zero
    · rw [updateFloat_tiltX, ht0]
      simp only [axisTiltF, Bool.or_false, if_true, if_false, Bool.false_eq_true]
      exact tiltIncF_zero

/-- C8, amended, at the initial `player`. -/
theorem updateFloat_left_step_witness :
    (updateFloat { left := true, right := false, up := false, down := false } player).x
      = -13421773 / 134217728 ∧
    (updateFloat { left := true, right := false, up := false, down := false } player).tiltX
      = 5368709 / 536870912 :=
  (updateFloat_left_step player (by norm_num [player])
    (by rw [quarter_PIf]; norm_num [player])).2.2.2.2 rfl rfl

/-! ## Lemmas on `findNormals` -/

theorem store_some (pts : Array ℚ) (i : Nat) (v : ℚ) (h : i < pts.size) :
    ∃ out, store pts i v = some out ∧ out.size = pts.size ∧
      ∀ j, out[j]? = if j = i then some v else pts[j]? := by
  refine ⟨pts.set ⟨i, h⟩ v, by simp [store, h], by simp, ?_⟩
  intro j
  rw [Array.get?_set]
  by_cases hj : j = i
  · simp [hj]
  · have : ¬ i = j := fun e => hj e.symm
    simp [hj, this]

theorem storeChain_some (pts : Array ℚ) (a b c : Nat) (v : ℚ)
    (ha : a < pts.size) (hb : b < pts.size) (hc : c < pts.size) :
    ∃ out, storeChain pts a b c v = some out ∧ out.size = pts.size ∧
      ∀ j, out[j]? = if j = a ∨ j = b ∨ j = c then some v else pts[j]? := by
  obtain ⟨o1, e1, s1, g1⟩ := store_some pts c v hc
  obtain ⟨o2, e2, s2, g2⟩ := store_some o1 b v (by omega)
  obtain ⟨o3, e3, s3, g3⟩ := store_some o2 a v (by omega)
  refine ⟨o3, by simp [storeChain, e1, e2, e3], by omega, ?_⟩
  intro j
  rw [g3, g2, g1]
  by_cases h1 : j = a <;> by_cases h2 : j = b <;> by_cases h3 : j = c <;> simp [h1, h2, h3]

theorem readVec3_some (pts : Array ℚ) (a : Nat) (ha : a + 2 < pts.size) :
    readVec3 pts a (a + 1) (a + 2) = some (vec3At pts a) := by
  have h0 : a < pts.size := by omega
  have h1 : a + 1 < pts.size := by omega
  simp [readVec3, vec3At, Array.getElem?_eq_getElem, ha, h0, h1]

/-- What one loop iteration does to the buffer, slot by slot. -/
theorem findNormalsBody_some (i : Nat) (pts : Array ℚ) (h : i + 26 < pts.size) :
    ∃ out, findNormalsBody i pts = some out ∧ out.size = pts.size ∧
      ∀ j, out[j]? =
        if i ≤ j ∧ j ≤ i + 26 ∧ 6 ≤ (j - i) % 9 then
          some ((storedNormal (vec3At pts i) (vec3At pts (i + 9)) (vec3At pts (i + 18))).comp
            ((j - i) % 9 - 6))
        else pts[j]? := by
  have r1 := readVec3_some pts i (by omega)
  have r2 := readVec3_some pts (i + 9) (by omega)
  have r3 := readVec3_some pts (i + 18) (by omega)
  generalize hp1 : vec3At pts i = p1 at r1
  generalize hp2 : vec3At pts (i + 9) = p2 at r2
  generalize hp3 : vec3At pts (i + 18) = p3 at r3
  obtain ⟨o1, e1, s1, g1⟩ := storeChain_some pts (i + 24) (i + 15) (i + 6)
    ((p2 - p1).y * (p3 - p1).z - (p2 - p1).z - (p3 - p1).y) (by omega) (by omega) (by omega)
  obtain ⟨o2, e2, s2, g2⟩ := storeChain_some o1 (i + 25) (i + 16) (i + 7)
    ((p2 - p1).z * (p3 - p1).x - (p2 - p1).x * (p3 - p1).z) (by omega) (by omega) (by omega)
  obtain ⟨o3, e3, s3, g3⟩ := storeChain_some o2 (i + 26) (i + 17) (i + 8)
    ((p2 - p1).x * (p3 - p1).y - (p2 - p1).y * (p3 - p1).x) (by omega) (by omega) (by omega)
  refine ⟨o3, ?_, by omega, ?_⟩
  · have r1' : readVec3 pts i (i + 1) (i + 2) = some p1 := r1
    have r2' : readVec3 pts (i + 9) (i + 10) (i + 11) = some p2 := r2
    have r3' : readVec3 pts (i + 18) (i + 19) (i + 20) = some p3 := r3
    simp [findNormalsBody, r1', r2', r3', e1, e2, e3]
  · intro j
    rw [g3, g2, g1]
    by_cases hc : i ≤ j ∧ j ≤ i + 26 ∧ 6 ≤ (j - i) % 9
    · rw [if_pos hc]
      have hj : j = i + 6 ∨ j = i + 7 ∨ j = i + 8 ∨ j = i + 15 ∨ j = i + 16 ∨ j = i + 17 ∨
          j = i + 24 ∨ j = i + 25 ∨ j = i + 26 := by omega
      rcases hj with hj | hj | hj | hj | hj | hj | hj | hj | hj <;> subst hj <;>
        simp [storedNormal, Vec3.comp]
    · rw [if_neg hc]
      have n1 : ¬ (j = i + 26 ∨ j = i + 17 ∨ j = i + 8) := by omega
      have n2 : ¬ (j = i + 25 ∨ j = i + 16 ∨ j = i + 7) := by omega
      have n3 : ¬ (j = i + 24 ∨ j = i + 15 ∨ j = i + 6) := by omega
      rw [if_neg n1, if_neg n2, if_neg n3]

/-- The slot-by-slot description of a buffer after the normals of the
triangles `j, j + 1, ..., n - 1` were written from the positions in `pts`. -/
theorem findNormalsLoop_some (n : Nat) :
    ∀ (fuel j : Nat) (pts : Array ℚ), pts.size = 27 * n → j ≤ n → n - j ≤ fuel →
      ∃ out, findNormalsLoop fuel (27 * j) pts = some out ∧ out.size = pts.size ∧
        ∀ idx, out[idx]? =
          if 27 * j ≤ idx ∧ idx < 27 * n ∧ 6 ≤ idx % 9 then
            some ((storedNormal (position pts (idx / 27) 0) (position pts (idx / 27) 1)
              (position pts (idx / 27) 2)).comp (idx % 9 - 6))
          else pts[idx]? := by
  intro fuel
  induction fuel with
  | zero =>
    intro j pts hs hj hf
    have hjn : j = n := by omega
    refine ⟨pts, ?_, rfl, ?_⟩
    · have : ¬ 27 * j < pts.size := by omega
      simp [findNormalsLoop, this]
    · intro idx
      have : ¬ (27 * j ≤ idx ∧ idx < 27 * n ∧ 6 ≤ idx % 9) := by omega
      rw [if_neg this]
  | succ fuel ih =>
    intro j pts hs hj hf
    by_cases hjn : j = n
    · refine ⟨pts, ?_, rfl, ?_⟩
      · have : ¬ 27 * j < pts.size := by omega
        simp [findNormalsLoop, this]
      · intro idx
        have : ¬ (27 * j ≤ idx ∧ idx < 27 * n ∧ 6 ≤ idx % 9) := by omega
        rw [if_neg this]
    · have hlt : 27 * j < pts.size := by omega
      obtain ⟨mid, em, sm, gm⟩ := findNormalsBody_some (27 * j) pts (by omega)
      obtain ⟨out, eo, so, go⟩ := ih (j + 1) mid (by omega) (by omega) (by omega)
      refine ⟨out, ?_, by omega, ?_⟩
      · have e27 : 27 * j + 9 * 3 = 27 * (j + 1) := by omega
        simp only [findNormalsLoop, if_pos hlt, em, Option.bind, e27]
        exact eo
      · -- positions are untouched by the iteration
        have keep : ∀ a, a % 9 < 3 → mid[a]? = pts[a]? := by
          intro a ha
          rw [gm a]
          have : ¬ (27 * j ≤ a ∧ a ≤ 27 * j + 26 ∧ 6 ≤ (a - 27 * j) % 9) := by omega
          rw [if_neg this]
        have keepv : ∀ a, a % 9 = 0 → vec3At mid a = vec3At pts a := by
          intro a ha
          simp only [vec3At, Array.getD_eq_get?]
          rw [keep a (by omega), keep (a + 1) (by omega), keep (a + 2) (by omega)]
        have keepp : ∀ k v, position mid k v = position pts k v := by
          intro k v
          exact keepv _ (by omega)
        intro idx
        rw [go idx, gm idx]
        simp only [keepp]
        by_cases h1 : 27 * (j + 1) ≤ idx ∧ idx < 27 * n ∧ 6 ≤ idx % 9
        · have h2 : 27 * j ≤ idx ∧ idx < 27 * n ∧ 6 ≤ idx % 9 := by omega
          rw [if_pos h1, if_pos h2]
        · rw [if_neg h1]
          by_cases h2 : 27 * j ≤ idx ∧ idx < 27 * n ∧ 6 ≤ idx % 9
          · have h3 : 27 * j ≤ idx ∧ idx ≤ 27 * j + 26 ∧ 6 ≤ (idx - 27 * j) % 9 := by omega
            rw [if_pos h2, if_pos h3]
            have hd : idx / 27 = j := by omega
            have hm : (idx - 27 * j) % 9 = idx % 9 := by omega
            rw [hd, hm]
            have a1 : 27 * j + 9 = 27 * j + 9 * 1 := by omega
            have a2 : 27 * j + 18 = 27 * j + 9 * 2 := by omega
            have a0 : vec3At pts (27 * j) = position pts j 0 := by simp [position]
            rw [a0, a1, a2]
            rfl
          · have h3 : ¬ (27 * j ≤ idx ∧ idx ≤ 27 * j + 26 ∧ 6 ≤ (idx - 27 * j) % 9) := by omega
            rw [if_neg h2, if_neg h3]

/-- On a buffer of `n` whole triangles `findNormals` returns a buffer of the
same size in which every normal slot holds the stored normal of its triangle,
computed from the positions of the input, and every other slot is unchanged. -/
theorem findNormals_some (data pts : Array ℚ) (n : Nat) (hs : pts.size = 27 * n) :
    ∃ out, findNormals data pts = some out ∧ out.size = pts.size ∧
      ∀ idx, out[idx]? =
        if idx < 27 * n ∧ 6 ≤ idx % 9 then
          some ((storedNormal (position pts (idx / 27) 0) (position pts (idx / 27) 1)
            (position pts (idx / 27) 2)).comp (idx % 9 - 6))
        else pts[idx]? := by
  obtain ⟨out, eo, so, go⟩ := findNormalsLoop_some n pts.size 0 pts hs (by omega) (by omega)
  refine ⟨out, eo, so, ?_⟩
  intro idx
  rw [go idx]
  by_cases h : idx < 27 * n ∧ 6 ≤ idx % 9
  · rw [if_pos h, if_pos (by omega)]
  · rw [if_neg h, if_neg (by omega)]

theorem normal_of_slots {out : Array ℚ} {k v : Nat} {N : Vec3}
    (h : ∀ c, c < 3 → out[27 * k + 9 * v + 6 + c]? = some (N.comp c)) :
    normal out k v = N := by
  have h0 := h 0 (by omega)
  have h1 := h 1 (by omega)
  have h2 := h 2 (by omega)
  simp only [Nat.add_zero] at h0
  rcases N with ⟨a, b, c⟩
  simp [normal, vec3At, h0, h1, h2, Vec3.comp]

/-- After `findNormals`, the normal slot of vertex `v` of triangle `k` holds
the stored normal of triangle `k`. -/
theorem findNormals_normal {data pts out : Array ℚ} {n : Nat} (hs : pts.size = 27 * n)
    (ho : findNormals data pts = some out) {k v : Nat} (hk : k < n) (hv : v < 3) :
    normal out k v =
      storedNormal (position pts k 0) (position pts k 1) (position pts k 2) := by
  obtain ⟨out', eo, _, go⟩ := findNormals_some data pts n hs
  have : out' = out := by rw [eo] at ho; exact Option.some.inj ho
  subst this
  apply normal_of_slots
  intro c hc
  rw [go]
  have hcond : 27 * k + 9 * v + 6 + c < 27 * n ∧ 6 ≤ (27 * k + 9 * v + 6 + c) % 9 := by omega
  rw [if_pos hcond]
  have hd : (27 * k + 9 * v + 6 + c) / 27 = k := by omega
  have hm : (27 * k + 9 * v + 6 + c) % 9 - 6 = c := by omega
  rw [hd, hm]

/-! ## The face normals: claims C1, C5, C6, C7 -/

theorem size_eq_of_mod {pts : Array ℚ} (hs : pts.size % 27 = 0) :
    pts.size = 27 * (pts.size / 27) := by omega

theorem vec3_sub_mk (a b c d e f : ℚ) :
    (⟨a, b, c⟩ : Vec3) - ⟨d, e, f⟩ = ⟨a - d, b - e, c - f⟩ := rfl

theorem vec3_mul_mk (a b c d e f : ℚ) :
    (⟨a, b, c⟩ : Vec3) * ⟨d, e, f⟩ = ⟨a * d, b * e, c * f⟩ := rfl

/-- The stored normal of a triangle whose three positions coincide is zero. -/
theorem storedNormal_same (p : Vec3) : storedNormal p p p = ⟨0, 0, 0⟩ := by
  rcases p with ⟨a, b, c⟩
  simp [storedNormal, vec3_sub_mk]

set_option maxRecDepth 100000 in
theorem player_points_size : player.points.size = 27 * 26 := by decide

set_option maxRecDepth 100000 in
theorem player_points_triangle0 :
    position player.points 0 0 = ⟨-1, 0, 0⟩ ∧ position player.points 0 1 = ⟨1, 0, 0⟩ ∧
      position player.points 0 2 = ⟨0, -1/2, -1/4⟩ := by
  have e0 : position player.points 0 0 = ⟨-1.000, 0.000, 0.000⟩ := rfl
  have e1 : position player.points 0 1 = ⟨1.000, 0.000, 0.000⟩ := rfl
  have e2 : position player.points 0 2 = ⟨0.000, -0.500, -0.250⟩ := rfl
  rw [e0, e1, e2]
  norm_num

/-- C1, the code at its own data.  On the program's table `player.points`,
`findNormals` stores `(1/2, 1/2, -1)` in the normal slots of the three vertices
of the first triangle, whose positions are `p1 = (-1, 0, 0)`, `p2 = (1, 0, 0)`,
`p3 = (0, -1/2, -1/4)`; the cross product `(p2 − p1) × (p3 − p1)` is
`(0, 1/2, -1)`. -/
theorem findNormals_player_points_not_cross :
    ∃ out, findNormals player.points player.points = some out ∧
      (∀ v, v < 3 → normal out 0 v = ⟨1/2, 1/2, -1⟩) ∧
      cross (position player.points 0 1 - position player.points 0 0)
        (position player.points 0 2 - position player.points 0 0) = ⟨0, 1/2, -1⟩ ∧
      (⟨1/2, 1/2, -1⟩ : Vec3) ≠ ⟨0, 1/2, -1⟩ := by
  obtain ⟨out, ho, _, _⟩ :=
    findNormals_some player.points player.points 26 player_points_size
  obtain ⟨e0, e1, e2⟩ := player_points_triangle0
  refine ⟨out, ho, ?_, ?_, ?_⟩
  · intro v hv
    rw [findNormals_normal player_points_size ho (by omega : 0 < 26) hv, e0, e1, e2]
    simp only [storedNormal, vec3_sub_mk]
    norm_num
  · rw [e0, e1, e2]
    simp only [cross, vec3_sub_mk]
    norm_num
  · intro h
    have hx := congrArg Vec3.x h
    norm_num at hx

/-- The same three scalars at `j'` in one buffer and at `j` in another give the same vector. -/
theorem vec3At_congr (pts pts' : Array ℚ) (j j' : Nat)
    (h : ∀ c, c < 3 → pts'[j' + c]? = pts[j + c]?) : vec3At pts' j' = vec3At pts j := by
  have h0 := h 0 (by omega)
  have h1 := h 1 (by omega)
  have h2 := h 2 (by omega)
  simp only [Nat.add_zero] at h0
  simp only [vec3At, Array.getD_eq_get?, h0, h1, h2]

/-- After `findNormals`, slot `c` of the normal of vertex `v` of triangle `k`
holds component `c` of the stored normal of triangle `k`. -/
theorem findNormals_slot {data pts out : Array ℚ} {n : Nat} (hs : pts.size = 27 * n)
    (ho : findNormals data pts = some out) {k v c : Nat} (hk : k < n) (hv : v < 3)
    (hc : c < 3) :
    out[27 * k + 9 * v + 6 + c]? =
      some ((storedNormal (position pts k 0) (position pts k 1) (position pts k 2)).comp c) := by
  obtain ⟨out', eo, _, go⟩ := findNormals_some data pts n hs
  have : out' = out := by rw [eo] at ho; exact Option.some.inj ho
  subst this
  rw [go]
  have hcond : 27 * k + 9 * v + 6 + c < 27 * n ∧ 6 ≤ (27 * k + 9 * v + 6 + c) % 9 := by omega
  rw [if_pos hcond]
  have hd : (27 * k + 9 * v + 6 + c) / 27 = k := by omega
  have hm : (27 * k + 9 * v + 6 + c) % 9 - 6 = c := by omega
  rw [hd, hm]

/-- C5.  For a buffer of whole triangles and a triangle `k` in it,
`findNormals` returns a buffer of the same length in which the normal slots of
the three vertices of triangle `k` hold one vector `N`, and `N` depends on the
nine position scalars of triangle `k` only: any other buffer of whole
triangles with the same nine position scalars at triangle `k` (whatever its
colours, prior normal slots and other triangles) gets the same `N` in these
slots. -/
theorem findNormals_normal_own_positions (data pts data' pts' : Array ℚ) (k : ℕ)
    (hs : pts.size % 27 = 0) (hk : k < pts.size / 27)
    (hs' : pts'.size % 27 = 0) (hk' : k < pts'.size / 27)
    (hpos : ∀ v, v < 3 → ∀ c, c < 3 → pts'[27 * k + 9 * v + c]? = pts[27 * k + 9 * v + c]?) :
    ∃ (out out' : Array ℚ) (N : Vec3),
      findNormals data pts = some out ∧ findNormals data' pts' = some out' ∧
      out.size = pts.size ∧ out'.size = pts'.size ∧
      ∀ v, v < 3 → ∀ c, c < 3 →
        out[27 * k + 9 * v + 6 + c]? = some (N.comp c) ∧
        out'[27 * k + 9 * v + 6 + c]? = some (N.comp c) := by
  have hsz := size_eq_of_mod hs
  have hsz' := size_eq_of_mod hs'
  obtain ⟨out, ho, so, _⟩ := findNormals_some data pts _ hsz
  obtain ⟨out', ho', so', _⟩ := findNormals_some data' pts' _ hsz'
  have hp : ∀ v, v < 3 → position pts' k v = position pts k v := by
    intro v hv
    exact vec3At_congr pts pts' _ _ (hpos v hv)
  refine ⟨out, out', storedNormal (position pts k 0) (position pts k 1) (position pts k 2),
    ho, ho', so, so', ?_⟩
  intro v hv c hc
  refine ⟨findNormals_slot hsz ho hk hv hc, ?_⟩
  rw [findNormals_slot hsz' ho' hk' hv hc, hp 0 (by omega), hp 1 (by omega), hp 2 (by omega)]

/-- C5 on two buffers of two triangles that share the positions of triangle
`1` and differ in every colour, every prior normal slot and all of triangle `0`. -/
theorem findNormals_normal_own_positions_witness :
    ∃ (out out' : Array ℚ) (N : Vec3),
      findNormals #[] twoTriangles = some out ∧ findNormals #[] twoTrianglesOther = some out' ∧
      out.size = twoTriangles.size ∧ out'.size = twoTrianglesOther.size ∧
      ∀ v, v < 3 → ∀ c, c < 3 →
        out[27 * 1 + 9 * v + 6 + c]? = some (N.comp c) ∧
        out'[27 * 1 + 9 * v + 6 + c]? = some (N.comp c) :=
  findNormals_normal_own_positions #[] twoTriangles #[] twoTrianglesOther 1
    (by decide) (by decide) (by decide) (by decide)
    (by
      intro v hv c hc
      interval_cases v <;> interval_cases c <;> rfl)

/-- C6, the code at a collinear triangle.  The positions `(0,0,0)`, `(0,1,0)`,
`(0,2,0)` lie on one line (`p3 − p1 = 2 (p2 − p1)`, cross product zero), and
`findNormals` stores `(-2, 0, 0)` in the normal slots of the three vertices. -/
theorem findNormals_collinear_not_zero :
    ∃ out, findNormals collinearTriangle collinearTriangle = some out ∧
      (∀ v, v < 3 → normal out 0 v = ⟨-2, 0, 0⟩) ∧
      (⟨-2, 0, 0⟩ : Vec3) ≠ ⟨0, 0, 0⟩ ∧
      position collinearTriangle 0 2 - position collinearTriangle 0 0
        = (⟨2, 2, 2⟩ : Vec3) *
          (position collinearTriangle 0 1 - position collinearTriangle 0 0) ∧
      cross (position collinearTriangle 0 1 - position collinearTriangle 0 0)
        (position collinearTriangle 0 2 - position collinearTriangle 0 0) = ⟨0, 0, 0⟩ := by
  have hsz : collinearTriangle.size = 27 * 1 := by decide
  have e0 : position collinearTriangle 0 0 = ⟨0, 0, 0⟩ := rfl
  have e1 : position collinearTriangle 0 1 = ⟨0, 1, 0⟩ := rfl
  have e2 : position collinearTriangle 0 2 = ⟨0, 2, 0⟩ := rfl
  obtain ⟨out, ho, _, _⟩ := findNormals_some collinearTriangle collinearTriangle 1 hsz
  refine ⟨out, ho, ?_, ?_, ?_, ?_⟩
  · intro v hv
    rw [findNormals_normal hsz ho (by omega : 0 < 1) hv, e0, e1, e2]
    simp only [storedNormal, vec3_sub_mk]
    norm_num
  · intro h
    have hx := congrArg Vec3.x h
    norm_num at hx
  · rw [e0, e1, e2]
    simp only [vec3_sub_mk, vec3_mul_mk]
    norm_num
  · rw [e0, e1, e2]
    simp only [cross, vec3_sub_mk]
    norm_num

/-- C7.  For a buffer of whole triangles and a triangle `k` in it whose three
positions coincide (the scalars of the second and of the third vertex equal
those of the first), `findNormals` returns a buffer of the same length (no
subscript out of range) whose nine normal slots at the three vertices of
triangle `k` each hold `0`. -/
theorem findNormals_degenerate_zero (data pts : Array ℚ) (k : ℕ)
    (hs : pts.size % 27 = 0) (hk : k < pts.size / 27)
    (h2 : ∀ c, c < 3 → pts[27 * k + 9 + c]? = pts[27 * k + c]?)
    (h3 : ∀ c, c < 3 → pts[27 * k + 18 + c]? = pts[27 * k + c]?) :
    ∃ out, findNormals data pts = some out ∧ out.size = pts.size ∧
      ∀ v, v < 3 → ∀ c, c < 3 → out[27 * k + 9 * v + 6 + c]? = some 0 := by
  have hsz := size_eq_of_mod hs
  obtain ⟨out, ho, so, _⟩ := findNormals_some data pts _ hsz
  have e1 : position pts k 1 = position pts k 0 :=
    vec3At_congr pts pts (27 * k + 9 * 0) (27 * k + 9 * 1) (fun c hc => h2 c hc)
  have e2 : position pts k 2 = position pts k 0 :=
    vec3At_congr pts pts (27 * k + 9 * 0) (27 * k + 9 * 2) (fun c hc => h3 c hc)
  refine ⟨out, ho, so, ?_⟩
  intro v hv c hc
  rw [findNormals_slot hsz ho hk hv hc, e1, e2, storedNormal_same]
  interval_cases c <;> simp [Vec3.comp]

/-- C7 on a buffer whose triangle `0` has the position `(1, 2, 3)` three
times and `7` in every normal slot. -/
theorem findNormals_degenerate_zero_witness :
    ∃ out, findNormals #[] twoTrianglesOther = some out ∧
      out.size = twoTrianglesOther.size ∧
      ∀ v, v < 3 → ∀ c, c < 3 → out[27 * 0 + 9 * v + 6 + c]? = some 0 :=
  findNormals_degenerate_zero #[] twoTrianglesOther 0 (by decide) (by decide)
    (by
      intro c hc
      interval_cases c <;> rfl)
    (by
      intro c hc
      interval_cases c <;> rfl)

/-! ## Subscripts in range: claim C11 -/

theorem store_eq_some_imp {pts out : Array ℚ} {i : Nat} {v : ℚ} (h : store pts i v = some out) :
    i < pts.size ∧ out.size = pts.size := by
  unfold store at h
  split_ifs at h with hi
  have e := Option.some.inj h
  subst e
  exact ⟨hi, by simp⟩

theorem storeChain_eq_some_imp {pts out : Array ℚ} {a b c : Nat} {v : ℚ}
    (h : storeChain pts a b c v = some out) :
    (a < pts.size ∧ b < pts.size ∧ c < pts.size) ∧ out.size = pts.size := by
  simp only [storeChain, bind, Option.bind_eq_some, pure] at h
  obtain ⟨o1, e1, o2, e2, o3, e3, e⟩ := h
  have e' := Option.some.inj e
  subst e'
  obtain ⟨h1, s1⟩ := store_eq_some_imp e1
  obtain ⟨h2, s2⟩ := store_eq_some_imp e2
  obtain ⟨h3, s3⟩ := store_eq_some_imp e3
  exact ⟨⟨by omega, by omega, h1⟩, by omega⟩

/-- One loop iteration returns a buffer exactly when the subscripts `i`
through `i + 26` are in range. -/
theorem findNormalsBody_isSome_iff (i : Nat) (pts : Array ℚ) :
    (findNormalsBody i pts).isSome ↔ i + 26 < pts.size := by
  constructor
  · intro h
    obtain ⟨out, ho⟩ := Option.isSome_iff_exists.mp h
    simp only [findNormalsBody, bind, Option.bind_eq_some, pure] at ho
    obtain ⟨p1, _, p2, _, p3, _, o1, e1, o2, e2, o3, e3, _⟩ := ho
    obtain ⟨_, s1⟩ := storeChain_eq_some_imp e1
    obtain ⟨_, s2⟩ := storeChain_eq_some_imp e2
    obtain ⟨⟨h3, _, _⟩, _⟩ := storeChain_eq_some_imp e3
    omega
  · intro h
    obtain ⟨out, ho, _, _⟩ := findNormalsBody_some i pts h
    simp [ho]

/-- C11.  On a buffer whose length is a multiple of 27, every loop value `i`
of `findNormals` (a multiple of 27 below the length) has the subscripts `i`
through `i + 26` inside the buffer, each iteration run there succeeds, and
`findNormals` returns a buffer of the same length: no subscript is out of
range.  The table `player.points` has length `702 = 26 * 27`, and
`findNormals` returns on it. -/
theorem findNormals_subscripts_in_range (data pts : Array ℚ) (hs : pts.size % 27 = 0) :
    (∀ i, i < pts.size → i % 27 = 0 → ∀ j, i ≤ j → j ≤ i + 26 → j < pts.size) ∧
    (∀ i, i < pts.size → i % 27 = 0 → (findNormalsBody i pts).isSome) ∧
    (∃ out, findNormals data pts = some out ∧ out.size = pts.size) ∧
    (player.points.size = 702 ∧ 702 = 26 * 27 ∧
      ∃ out, findNormals player.points player.points = some out ∧ out.size = 702) := by
  refine ⟨?_, ?_, ?_, ?_, by norm_num, ?_⟩
  · intro i hi hm j _ hj
    omega
  · intro i hi hm
    rw [findNormalsBody_isSome_iff]
    omega
  · obtain ⟨out, ho, so, _⟩ := findNormals_some data pts _ (size_eq_of_mod hs)
    exact ⟨out, ho, so⟩
  · exact player_points_size
  · obtain ⟨out, ho, so, _⟩ :=
      findNormals_some player.points player.points 26 player_points_size
    exact ⟨out, ho, by rw [so, player_points_size]⟩

/-- C11 on the table `player.points` itself. -/
theorem findNormals_subscripts_in_range_witness :
    ∃ out, findNormals player.points player.points = some out ∧
      out.size = player.points.size :=
  (findNormals_subscripts_in_range player.points player.points
    (by rw [player_points_size])).2.2.1

/-! ## One increment of slack: claim C12 -/

theorem horizX_slack (inp : Input) (x : ℚ) (h : -5.1 < x ∧ x < 5.1) :
    -5.1 < horizX inp x ∧ horizX inp x < 5.1 := by
  obtain ⟨h1, h2⟩ := h
  rcases inp with ⟨l, r, u, d⟩
  cases l <;> cases r <;>
    simp only [horizX, xInc, xDec, if_true, if_false, Bool.false_eq_true] <;>
    first
      | exact ⟨h1, h2⟩
      | (split_ifs <;> constructor <;> norm_num at * <;> linarith)

/-- C12.  With `P = 3.14159 / 4`, the predicate `-5.1 < offset < 5.1`,
`|tiltX| < P + 0.01`, `|tiltY| < P + 0.01` is kept by one call of `update`
for every setting of the four flags.  The nominal limits are passed: from
offset `-4.95` and `tiltX = 0.78` a left step gives offset `-5.05 < -5` and
`tiltX = 0.79 > P`. -/
theorem update_keeps_one_increment_slack (inp : Input) (s : Player)
    (hx : -5.1 < s.x ∧ s.x < 5.1)
    (htx : |s.tiltX| < 3.14159 / 4 + 0.01) (hty : |s.tiltY| < 3.14159 / 4 + 0.01) :
    ((-5.1 < (update inp s).x ∧ (update inp s).x < 5.1) ∧
      |(update inp s).tiltX| < 3.14159 / 4 + 0.01 ∧
      |(update inp s).tiltY| < 3.14159 / 4 + 0.01) ∧
    ((update { left := true, right := false, up := false, down := false }
        { x := -4.95, y := 0, tiltX := 0.78, tiltY := 0, health := 100 }).x = -5.05 ∧
      (update { left := true, right := false, up := false, down := false }
        { x := -4.95, y := 0, tiltX := 0.78, tiltY := 0, health := 100 }).tiltX = 0.79 ∧
      (3.14159 / 4 : ℚ) < 0.79) := by
  have hb : tiltBound = 3.14159 / 4 + 0.01 := rfl
  rw [← hb] at htx hty ⊢
  rw [abs_lt] at htx hty
  refine ⟨⟨?_, ?_, ?_⟩, ?_, ?_, by norm_num⟩
  · rw [update_x]
    exact horizX_slack inp s.x hx
  · rw [update_tiltX, abs_lt]
    exact axisTilt_bound _ _ _ htx
  · rw [update_tiltY, abs_lt]
    exact axisTilt_bound _ _ _ hty
  · rw [update_x]
    norm_num [horizX, xDec]
  · rw [update_tiltX]
    norm_num [axisTilt, tiltInc, PI]

/-- C12 at offset `-4.95`, `tiltX = 0.78`, `tiltY = -0.78` with the left and
down flags set. -/
theorem update_keeps_one_increment_slack_witness :
    (-5.1 < (update { left := true, right := false, up := false, down := true }
        { x := -4.95, y := 0, tiltX := 0.78, tiltY := -0.78, health := 100 }).x ∧
      (update { left := true, right := false, up := false, down := true }
        { x := -4.95, y := 0, tiltX := 0.78, tiltY := -0.78, health := 100 }).x < 5.1) ∧
    |(update { left := true, right := false, up := false, down := true }
        { x := -4.95, y := 0, tiltX := 0.78, tiltY := -0.78, health := 100 }).tiltX|
      < 3.14159 / 4 + 0.01 ∧
    |(update { left := true, right := false, up := false, down := true }
        { x := -4.95, y := 0, tiltX := 0.78, tiltY := -0.78, health := 100 }).tiltY|
      < 3.14159 / 4 + 0.01 :=
  (update_keeps_one_increment_slack
    { left := true, right := false, up := false, down := true }
    { x := -4.95, y := 0, tiltX := 0.78, tiltY := -0.78, health := 100 }
    (by norm_num) (by norm_num [abs_lt]) (by norm_num [abs_lt])).1

end Spaceship
